import Mathlib

/-!
Verification of the AES-128 cipher engine (`src/aes-128/src/main.rs`) and the
null-padding utilities of the cipher-modes crate (`src/cipher-modes/src/utils.rs`).

Bytes are modelled as `Nat` values; `u8` overflow is made explicit with `% 256`,
`u128` wrapping with `% 2^128`.  A 4×4 AES state is a 16-field structure whose
field `aIJ` is the Rust `state[I][J]`.  Byte strings are `List Nat`.
-/

set_option maxRecDepth 4000

namespace Aes128

/-- AES S-box (`S_BOX` in the source). -/
def S_BOX : List Nat := [
  0x63, 0x7c, 0x77, 0x7b, 0xf2, 0x6b, 0x6f, 0xc5, 0x30, 0x01, 0x67, 0x2b, 0xfe, 0xd7, 0xab, 0x76,
  0xca, 0x82, 0xc9, 0x7d, 0xfa, 0x59, 0x47, 0xf0, 0xad, 0xd4, 0xa2, 0xaf, 0x9c, 0xa4, 0x72, 0xc0,
  0xb7, 0xfd, 0x93, 0x26, 0x36, 0x3f, 0xf7, 0xcc, 0x34, 0xa5, 0xe5, 0xf1, 0x71, 0xd8, 0x31, 0x15,
  0x04, 0xc7, 0x23, 0xc3, 0x18, 0x96, 0x05, 0x9a, 0x07, 0x12, 0x80, 0xe2, 0xeb, 0x27, 0xb2, 0x75,
  0x09, 0x83, 0x2c, 0x1a, 0x1b, 0x6e, 0x5a, 0xa0, 0x52, 0x3b, 0xd6, 0xb3, 0x29, 0xe3, 0x2f, 0x84,
  0x53, 0xd1, 0x00, 0xed, 0x20, 0xfc, 0xb1, 0x5b, 0x6a, 0xcb, 0xbe, 0x39, 0x4a, 0x4c, 0x58, 0xcf,
  0xd0, 0xef, 0xaa, 0xfb, 0x43, 0x4d, 0x33, 0x85, 0x45, 0xf9, 0x02, 0x7f, 0x50, 0x3c, 0x9f, 0xa8,
  0x51, 0xa3, 0x40, 0x8f, 0x92, 0x9d, 0x38, 0xf5, 0xbc, 0xb6, 0xda, 0x21, 0x10, 0xff, 0xf3, 0xd2,
  0xcd, 0x0c, 0x13, 0xec, 0x5f, 0x97, 0x44, 0x17, 0xc4, 0xa7, 0x7e, 0x3d, 0x64, 0x5d, 0x19, 0x73,
  0x60, 0x81, 0x4f, 0xdc, 0x22, 0x2a, 0x90, 0x88, 0x46, 0xee, 0xb8, 0x14, 0xde, 0x5e, 0x0b, 0xdb,
  0xe0, 0x32, 0x3a, 0x0a, 0x49, 0x06, 0x24, 0x5c, 0xc2, 0xd3, 0xac, 0x62, 0x91, 0x95, 0xe4, 0x79,
  0xe7, 0xc8, 0x37, 0x6d, 0x8d, 0xd5, 0x4e, 0xa9, 0x6c, 0x56, 0xf4, 0xea, 0x65, 0x7a, 0xae, 0x08,
  0xba, 0x78, 0x25, 0x2e, 0x1c, 0xa6, 0xb4, 0xc6, 0xe8, 0xdd, 0x74, 0x1f, 0x4b, 0xbd, 0x8b, 0x8a,
  0x70, 0x3e, 0xb5, 0x66, 0x48, 0x03, 0xf6, 0x0e, 0x61, 0x35, 0x57, 0xb9, 0x86, 0xc1, 0x1d, 0x9e,
  0xe1, 0xf8, 0x98, 0x11, 0x69, 0xd9, 0x8e, 0x94, 0x9b, 0x1e, 0x87, 0xe9, 0xce, 0x55, 0x28, 0xdf,
  0x8c, 0xa1, 0x89, 0x0d, 0xbf, 0xe6, 0x42, 0x68, 0x41, 0x99, 0x2d, 0x0f, 0xb0, 0x54, 0xbb, 0x16]

/-- Inverse S-box (`INV_S_BOX` in the source). -/
def INV_S_BOX : List Nat := [
  0x52, 0x09, 0x6a, 0xd5, 0x30, 0x36, 0xa5, 0x38, 0xbf, 0x40, 0xa3, 0x9e, 0x81, 0xf3, 0xd7, 0xfb,
  0x7c, 0xe3, 0x39, 0x82, 0x9b, 0x2f, 0xff, 0x87, 0x34, 0x8e, 0x43, 0x44, 0xc4, 0xde, 0xe9, 0xcb,
  0x54, 0x7b, 0x94, 0x32, 0xa6, 0xc2, 0x23, 0x3d, 0xee, 0x4c, 0x95, 0x0b, 0x42, 0xfa, 0xc3, 0x4e,
  0x08, 0x2e, 0xa1, 0x66, 0x28, 0xd9, 0x24, 0xb2, 0x76, 0x5b, 0xa2, 0x49, 0x6d, 0x8b, 0xd1, 0x25,
  0x72, 0xf8, 0xf6, 0x64, 0x86, 0x68, 0x98, 0x16, 0xd4, 0xa4, 0x5c, 0xcc, 0x5d, 0x65, 0xb6, 0x92,
  0x6c, 0x70, 0x48, 0x50, 0xfd, 0xed, 0xb9, 0xda, 0x5e, 0x15, 0x46, 0x57, 0xa7, 0x8d, 0x9d, 0x84,
  0x90, 0xd8, 0xab, 0x00, 0x8c, 0xbc, 0xd3, 0x0a, 0xf7, 0xe4, 0x58, 0x05, 0xb8, 0xb3, 0x45, 0x06,
  0xd0, 0x2c, 0x1e, 0x8f, 0xca, 0x3f, 0x0f, 0x02, 0xc1, 0xaf, 0xbd, 0x03, 0x01, 0x13, 0x8a, 0x6b,
  0x3a, 0x91, 0x11, 0x41, 0x4f, 0x67, 0xdc, 0xea, 0x97, 0xf2, 0xcf, 0xce, 0xf0, 0xb4, 0xe6, 0x73,
  0x96, 0xac, 0x74, 0x22, 0xe7, 0xad, 0x35, 0x85, 0xe2, 0xf9, 0x37, 0xe8, 0x1c, 0x75, 0xdf, 0x6e,
  0x47, 0xf1, 0x1a, 0x71, 0x1d, 0x29, 0xc5, 0x89, 0x6f, 0xb7, 0x62, 0x0e, 0xaa, 0x18, 0xbe, 0x1b,
  0xfc, 0x56, 0x3e, 0x4b, 0xc6, 0xd2, 0x79, 0x20, 0x9a, 0xdb, 0xc0, 0xfe, 0x78, 0xcd, 0x5a, 0xf4,
  0x1f, 0xdd, 0xa8, 0x33, 0x88, 0x07, 0xc7, 0x31, 0xb1, 0x12, 0x10, 0x59, 0x27, 0x80, 0xec, 0x5f,
  0x60, 0x51, 0x7f, 0xa9, 0x19, 0xb5, 0x4a, 0x0d, 0x2d, 0xe5, 0x7a, 0x9f, 0x93, 0xc9, 0x9c, 0xef,
  0xa0, 0xe0, 0x3b, 0x4d, 0xae, 0x2a, 0xf5, 0xb0, 0xc8, 0xeb, 0xbb, 0x3c, 0x83, 0x53, 0x99, 0x61,
  0x17, 0x2b, 0x04, 0x7e, 0xba, 0x77, 0xd6, 0x26, 0xe1, 0x69, 0x14, 0x63, 0x55, 0x21, 0x0c, 0x7d]

/-- Rcon constants (`RCON` in the source). -/
def RCON : List Nat := [0x00, 0x01, 0x02, 0x04, 0x08, 0x10, 0x20, 0x40, 0x80, 0x1b, 0x36]

/-- S-box lookup (`S_BOX[b as usize]`). -/
def sbox (b : Nat) : Nat := S_BOX.getD b 0

/-- Inverse S-box lookup (`INV_S_BOX[b as usize]`). -/
def inv_sbox (b : Nat) : Nat := INV_S_BOX.getD b 0

/-- One iteration of the `gf_mul` loop: `result`, `a`, `b` are the loop-carried
`u8` values; the first argument is the remaining iteration count. -/
def gfLoop : Nat → Nat → Nat → Nat → Nat
  | 0, result, _, _ => result
  | fuel + 1, result, a, b =>
    let result' := if b &&& 1 ≠ 0 then result ^^^ a else result
    let high_bit := a &&& 0x80
    let a' := a * 2 % 256
    let a'' := if high_bit ≠ 0 then a' ^^^ 0x1b else a'
    gfLoop fuel result' a'' (b >>> 1)

/-- Galois-field multiplication in F(2^8) (`Aes::gf_mul`): 8 iterations of
shift-and-conditional-XOR with reduction by 0x1b. -/
def gf_mul (a b : Nat) : Nat := gfLoop 8 0 a b

/-- The 4×4 AES state (`[[u8; 4]; 4]`); field `aIJ` is `state[I][J]`. -/
structure AesState where
  a00 : Nat
  a01 : Nat
  a02 : Nat
  a03 : Nat
  a10 : Nat
  a11 : Nat
  a12 : Nat
  a13 : Nat
  a20 : Nat
  a21 : Nat
  a22 : Nat
  a23 : Nat
  a30 : Nat
  a31 : Nat
  a32 : Nat
  a33 : Nat
  deriving Repr, DecidableEq

/-- `Aes::bytes_to_state`: `state[i][j] = bytes[i + 4*j]` (column-major fill). -/
def bytes_to_state (bytes : List Nat) : AesState where
  a00 := bytes.getD (0 + 4 * 0) 0
  a01 := bytes.getD (0 + 4 * 1) 0
  a02 := bytes.getD (0 + 4 * 2) 0
  a03 := bytes.getD (0 + 4 * 3) 0
  a10 := bytes.getD (1 + 4 * 0) 0
  a11 := bytes.getD (1 + 4 * 1) 0
  a12 := bytes.getD (1 + 4 * 2) 0
  a13 := bytes.getD (1 + 4 * 3) 0
  a20 := bytes.getD (2 + 4 * 0) 0
  a21 := bytes.getD (2 + 4 * 1) 0
  a22 := bytes.getD (2 + 4 * 2) 0
  a23 := bytes.getD (2 + 4 * 3) 0
  a30 := bytes.getD (3 + 4 * 0) 0
  a31 := bytes.getD (3 + 4 * 1) 0
  a32 := bytes.getD (3 + 4 * 2) 0
  a33 := bytes.getD (3 + 4 * 3) 0

/-- `Aes::state_to_bytes`: `bytes[i + 4*j] = state[i][j]`. -/
def state_to_bytes (s : AesState) : List Nat :=
  [s.a00, s.a10, s.a20, s.a30,
   s.a01, s.a11, s.a21, s.a31,
   s.a02, s.a12, s.a22, s.a32,
   s.a03, s.a13, s.a23, s.a33]

/-- `Aes::sub_bytes`: S-box applied to every byte of the state. -/
def sub_bytes (s : AesState) : AesState where
  a00 := sbox s.a00
  a01 := sbox s.a01
  a02 := sbox s.a02
  a03 := sbox s.a03
  a10 := sbox s.a10
  a11 := sbox s.a11
  a12 := sbox s.a12
  a13 := sbox s.a13
  a20 := sbox s.a20
  a21 := sbox s.a21
  a22 := sbox s.a22
  a23 := sbox s.a23
  a30 := sbox s.a30
  a31 := sbox s.a31
  a32 := sbox s.a32
  a33 := sbox s.a33

/-- `Aes::inv_sub_bytes`. -/
def inv_sub_bytes (s : AesState) : AesState where
  a00 := inv_sbox s.a00
  a01 := inv_sbox s.a01
  a02 := inv_sbox s.a02
  a03 := inv_sbox s.a03
  a10 := inv_sbox s.a10
  a11 := inv_sbox s.a11
  a12 := inv_sbox s.a12
  a13 := inv_sbox s.a13
  a20 := inv_sbox s.a20
  a21 := inv_sbox s.a21
  a22 := inv_sbox s.a22
  a23 := inv_sbox s.a23
  a30 := inv_sbox s.a30
  a31 := inv_sbox s.a31
  a32 := inv_sbox s.a32
  a33 := inv_sbox s.a33

/-- `Aes::shift_rows`: row `r` rotated left by `r`. -/
def shift_rows (s : AesState) : AesState where
  a00 := s.a00
  a01 := s.a01
  a02 := s.a02
  a03 := s.a03
  a10 := s.a11
  a11 := s.a12
  a12 := s.a13
  a13 := s.a10
  a20 := s.a22
  a21 := s.a23
  a22 := s.a20
  a23 := s.a21
  a30 := s.a33
  a31 := s.a30
  a32 := s.a31
  a33 := s.a32

/-- `Aes::inv_shift_rows`: row `r` rotated right by `r`. -/
def inv_shift_rows (s : AesState) : AesState where
  a00 := s.a00
  a01 := s.a01
  a02 := s.a02
  a03 := s.a03
  a10 := s.a13
  a11 := s.a10
  a12 := s.a11
  a13 := s.a12
  a20 := s.a22
  a21 := s.a23
  a22 := s.a20
  a23 := s.a21
  a30 := s.a31
  a31 := s.a32
  a32 := s.a33
  a33 := s.a30

/-- `Aes::mix_columns`: each column multiplied by the fixed matrix
`[[2,3,1,1],[1,2,3,1],[1,1,2,3],[3,1,1,2]]` over GF(2^8). -/
def mix_columns (s : AesState) : AesState where
  a00 := gf_mul 0x02 s.a00 ^^^ gf_mul 0x03 s.a10 ^^^ s.a20 ^^^ s.a30
  a10 := s.a00 ^^^ gf_mul 0x02 s.a10 ^^^ gf_mul 0x03 s.a20 ^^^ s.a30
  a20 := s.a00 ^^^ s.a10 ^^^ gf_mul 0x02 s.a20 ^^^ gf_mul 0x03 s.a30
  a30 := gf_mul 0x03 s.a00 ^^^ s.a10 ^^^ s.a20 ^^^ gf_mul 0x02 s.a30
  a01 := gf_mul 0x02 s.a01 ^^^ gf_mul 0x03 s.a11 ^^^ s.a21 ^^^ s.a31
  a11 := s.a01 ^^^ gf_mul 0x02 s.a11 ^^^ gf_mul 0x03 s.a21 ^^^ s.a31
  a21 := s.a01 ^^^ s.a11 ^^^ gf_mul 0x02 s.a21 ^^^ gf_mul 0x03 s.a31
  a31 := gf_mul 0x03 s.a01 ^^^ s.a11 ^^^ s.a21 ^^^ gf_mul 0x02 s.a31
  a02 := gf_mul 0x02 s.a02 ^^^ gf_mul 0x03 s.a12 ^^^ s.a22 ^^^ s.a32
  a12 := s.a02 ^^^ gf_mul 0x02 s.a12 ^^^ gf_mul 0x03 s.a22 ^^^ s.a32
  a22 := s.a02 ^^^ s.a12 ^^^ gf_mul 0x02 s.a22 ^^^ gf_mul 0x03 s.a32
  a32 := gf_mul 0x03 s.a02 ^^^ s.a12 ^^^ s.a22 ^^^ gf_mul 0x02 s.a32
  a03 := gf_mul 0x02 s.a03 ^^^ gf_mul 0x03 s.a13 ^^^ s.a23 ^^^ s.a33
  a13 := s.a03 ^^^ gf_mul 0x02 s.a13 ^^^ gf_mul 0x03 s.a23 ^^^ s.a33
  a23 := s.a03 ^^^ s.a13 ^^^ gf_mul 0x02 s.a23 ^^^ gf_mul 0x03 s.a33
  a33 := gf_mul 0x03 s.a03 ^^^ s.a13 ^^^ s.a23 ^^^ gf_mul 0x02 s.a33

/-- `Aes::inv_mix_columns`: inverse matrix `[[E,B,D,9],[9,E,B,D],[D,9,E,B],[B,D,9,E]]`. -/
def inv_mix_columns (s : AesState) : AesState where
  a00 := gf_mul 0x0e s.a00 ^^^ gf_mul 0x0b s.a10 ^^^ gf_mul 0x0d s.a20 ^^^ gf_mul 0x09 s.a30
  a10 := gf_mul 0x09 s.a00 ^^^ gf_mul 0x0e s.a10 ^^^ gf_mul 0x0b s.a20 ^^^ gf_mul 0x0d s.a30
  a20 := gf_mul 0x0d s.a00 ^^^ gf_mul 0x09 s.a10 ^^^ gf_mul 0x0e s.a20 ^^^ gf_mul 0x0b s.a30
  a30 := gf_mul 0x0b s.a00 ^^^ gf_mul 0x0d s.a10 ^^^ gf_mul 0x09 s.a20 ^^^ gf_mul 0x0e s.a30
  a01 := gf_mul 0x0e s.a01 ^^^ gf_mul 0x0b s.a11 ^^^ gf_mul 0x0d s.a21 ^^^ gf_mul 0x09 s.a31
  a11 := gf_mul 0x09 s.a01 ^^^ gf_mul 0x0e s.a11 ^^^ gf_mul 0x0b s.a21 ^^^ gf_mul 0x0d s.a31
  a21 := gf_mul 0x0d s.a01 ^^^ gf_mul 0x09 s.a11 ^^^ gf_mul 0x0e s.a21 ^^^ gf_mul 0x0b s.a31
  a31 := gf_mul 0x0b s.a01 ^^^ gf_mul 0x0d s.a11 ^^^ gf_mul 0x09 s.a21 ^^^ gf_mul 0x0e s.a31
  a02 := gf_mul 0x0e s.a02 ^^^ gf_mul 0x0b s.a12 ^^^ gf_mul 0x0d s.a22 ^^^ gf_mul 0x09 s.a32
  a12 := gf_mul 0x09 s.a02 ^^^ gf_mul 0x0e s.a12 ^^^ gf_mul 0x0b s.a22 ^^^ gf_mul 0x0d s.a32
  a22 := gf_mul 0x0d s.a02 ^^^ gf_mul 0x09 s.a12 ^^^ gf_mul 0x0e s.a22 ^^^ gf_mul 0x0b s.a32
  a32 := gf_mul 0x0b s.a02 ^^^ gf_mul 0x0d s.a12 ^^^ gf_mul 0x09 s.a22 ^^^ gf_mul 0x0e s.a32
  a03 := gf_mul 0x0e s.a03 ^^^ gf_mul 0x0b s.a13 ^^^ gf_mul 0x0d s.a23 ^^^ gf_mul 0x09 s.a33
  a13 := gf_mul 0x09 s.a03 ^^^ gf_mul 0x0e s.a13 ^^^ gf_mul 0x0b s.a23 ^^^ gf_mul 0x0d s.a33
  a23 := gf_mul 0x0d s.a03 ^^^ gf_mul 0x09 s.a13 ^^^ gf_mul 0x0e s.a23 ^^^ gf_mul 0x0b s.a33
  a33 := gf_mul 0x0b s.a03 ^^^ gf_mul 0x0d s.a13 ^^^ gf_mul 0x09 s.a23 ^^^ gf_mul 0x0e s.a33

/-- `Aes::add_round_key`: `state[i][j] ^= expanded_key[round*16 + i + 4*j]`. -/
def add_round_key (ek : List Nat) (round : Nat) (s : AesState) : AesState where
  a00 := s.a00 ^^^ ek.getD (round * 16 + 0 + 4 * 0) 0
  a01 := s.a01 ^^^ ek.getD (round * 16 + 0 + 4 * 1) 0
  a02 := s.a02 ^^^ ek.getD (round * 16 + 0 + 4 * 2) 0
  a03 := s.a03 ^^^ ek.getD (round * 16 + 0 + 4 * 3) 0
  a10 := s.a10 ^^^ ek.getD (round * 16 + 1 + 4 * 0) 0
  a11 := s.a11 ^^^ ek.getD (round * 16 + 1 + 4 * 1) 0
  a12 := s.a12 ^^^ ek.getD (round * 16 + 1 + 4 * 2) 0
  a13 := s.a13 ^^^ ek.getD (round * 16 + 1 + 4 * 3) 0
  a20 := s.a20 ^^^ ek.getD (round * 16 + 2 + 4 * 0) 0
  a21 := s.a21 ^^^ ek.getD (round * 16 + 2 + 4 * 1) 0
  a22 := s.a22 ^^^ ek.getD (round * 16 + 2 + 4 * 2) 0
  a23 := s.a23 ^^^ ek.getD (round * 16 + 2 + 4 * 3) 0
  a30 := s.a30 ^^^ ek.getD (round * 16 + 3 + 4 * 0) 0
  a31 := s.a31 ^^^ ek.getD (round * 16 + 3 + 4 * 1) 0
  a32 := s.a32 ^^^ ek.getD (round * 16 + 3 + 4 * 2) 0
  a33 := s.a33 ^^^ ek.getD (round * 16 + 3 + 4 * 3) 0

/-- One step of `Aes::key_expansion`: given the bytes produced so far (of length
`i`), the next 4-byte word.  `temp` is the previous word `w[i-4..i]`; when `i`
is a multiple of 16 it is rotated left one byte, sent through the S-box, and its
first byte XORed with `RCON[i/16]`; the word is `w[i-16..i-12] XOR temp`. -/
def nextWord (ek : List Nat) : List Nat :=
  let i := ek.length
  let temp0 := ek.getD (i - 4) 0
  let temp1 := ek.getD (i - 3) 0
  let temp2 := ek.getD (i - 2) 0
  let temp3 := ek.getD (i - 1) 0
  if i % 16 = 0 then
    [ek.getD (i - 16) 0 ^^^ (sbox temp1 ^^^ RCON.getD (i / 16) 0),
     ek.getD (i - 15) 0 ^^^ sbox temp2,
     ek.getD (i - 14) 0 ^^^ sbox temp3,
     ek.getD (i - 13) 0 ^^^ sbox temp0]
  else
    [ek.getD (i - 16) 0 ^^^ temp0,
     ek.getD (i - 15) 0 ^^^ temp1,
     ek.getD (i - 14) 0 ^^^ temp2,
     ek.getD (i - 13) 0 ^^^ temp3]

/-- The expanded key after `n` iterations of the `key_expansion` loop
(the loop walks `i` from 16 to 172 in steps of 4, appending one word each time). -/
def ekUpTo (key : List Nat) : Nat → List Nat
  | 0 => key
  | n + 1 => ekUpTo key n ++ nextWord (ekUpTo key n)

/-- `Aes::key_expansion`: the 176-byte expanded key (40 generated words after
the verbatim 16-byte key). -/
def key_expansion (key : List Nat) : List Nat := ekUpTo key 40

/-- Body of the main encryption loop (`for round in 1..NUM_ROUNDS`):
SubBytes, ShiftRows, MixColumns, AddRoundKey. -/
def encRound (ek : List Nat) (s : AesState) (round : Nat) : AesState :=
  add_round_key ek round (mix_columns (shift_rows (sub_bytes s)))

/-- Body of the main decryption loop (`for round in (1..NUM_ROUNDS).rev()`):
AddRoundKey, InvMixColumns, InvShiftRows, InvSubBytes. -/
def decRound (ek : List Nat) (s : AesState) (round : Nat) : AesState :=
  inv_sub_bytes (inv_shift_rows (inv_mix_columns (add_round_key ek round s)))

/-- `Aes::encrypt_block`: initial AddRoundKey(0); rounds 1–9; final round 10
without MixColumns. -/
def encrypt_block (ek : List Nat) (block : List Nat) : List Nat :=
  let s := add_round_key ek 0 (bytes_to_state block)
  let s := (List.range' 1 9).foldl (encRound ek) s
  state_to_bytes (add_round_key ek 10 (shift_rows (sub_bytes s)))

/-- `Aes::decrypt_block`: AddRoundKey(10), InvShiftRows, InvSubBytes; rounds
9 down to 1 of `decRound`; final AddRoundKey(0). -/
def decrypt_block (ek : List Nat) (block : List Nat) : List Nat :=
  let s := inv_sub_bytes (inv_shift_rows (add_round_key ek 10 (bytes_to_state block)))
  let s := (List.range' 1 9).reverse.foldl (decRound ek) s
  state_to_bytes (add_round_key ek 0 s)

/-- FIPS-197 key `2b7e151628aed2a6abf7158809cf4f3c`. -/
def fipsKey : List Nat :=
  [0x2b, 0x7e, 0x15, 0x16, 0x28, 0xae, 0xd2, 0xa6, 0xab, 0xf7, 0x15, 0x88, 0x09, 0xcf, 0x4f, 0x3c]

/-- FIPS-197 plaintext `3243f6a8885a308d313198a2e0370734`. -/
def fipsPlain : List Nat :=
  [0x32, 0x43, 0xf6, 0xa8, 0x88, 0x5a, 0x30, 0x8d, 0x31, 0x31, 0x98, 0xa2, 0xe0, 0x37, 0x07, 0x34]

/-- FIPS-197 ciphertext `3925841d02dc09fbdc118597196a0b32`. -/
def fipsCipher : List Nat :=
  [0x39, 0x25, 0x84, 0x1d, 0x02, 0xdc, 0x09, 0xfb, 0xdc, 0x11, 0x85, 0x97, 0x19, 0x6a, 0x0b, 0x32]

section GaloisField

lemma xor_lt_256 {x y : Nat} (hx : x < 256) (hy : y < 256) : x ^^^ y < 256 := by
  have h : (256 : Nat) = 2 ^ 8 := by norm_num
  rw [h] at hx hy ⊢
  exact Nat.xor_lt_two_pow hx hy

lemma xor_left_comm (a b c : Nat) : a ^^^ (b ^^^ c) = b ^^^ (a ^^^ c) := by
  rw [← Nat.xor_assoc, Nat.xor_comm a b, Nat.xor_assoc]

lemma shiftRight_one_xor (b c : Nat) : (b ^^^ c) >>> 1 = b >>> 1 ^^^ c >>> 1 := by
  simp only [Nat.shiftRight_one]
  exact Nat.xor_div_two

/-- The `gf_mul` loop is additive in both the accumulator and the bits of `b`:
this is GF(2^8) distributivity for the shift-and-XOR multiplication. -/
lemma gfLoop_xor_general : ∀ n r s a b c : Nat,
    gfLoop n (r ^^^ s) a (b ^^^ c) = gfLoop n r a b ^^^ gfLoop n s a c := by
  intro n
  induction n with
  | zero => intro r s a b c; simp [gfLoop]
  | succ n ih =>
    intro r s a b c
    have hxorm : (b ^^^ c) % 2 = b % 2 ^^^ c % 2 := by
      simpa only [Nat.and_one_is_mod] using (Nat.and_xor_distrib_right (a := b) (b := c) (c := 1))
    simp only [gfLoop, Nat.and_one_is_mod]
    rw [shiftRight_one_xor]
    rcases Nat.mod_two_eq_zero_or_one b with hb2 | hb2 <;>
      rcases Nat.mod_two_eq_zero_or_one c with hc2 | hc2 <;>
      simp only [hb2, hc2, Nat.zero_xor, Nat.xor_zero, Nat.xor_self] at hxorm <;>
      simp only [hb2, hc2, hxorm] <;> norm_num
    · exact ih r s _ _ _
    · rw [Nat.xor_assoc]
      exact ih r (s ^^^ a) _ _ _
    · rw [Nat.xor_assoc, Nat.xor_comm s a, ← Nat.xor_assoc]
      exact ih (r ^^^ a) s _ _ _
    · have h : r ^^^ s = (r ^^^ a) ^^^ (s ^^^ a) := by
        rw [Nat.xor_assoc, Nat.xor_comm s a, ← Nat.xor_assoc a a s, Nat.xor_self, Nat.zero_xor]
      rw [h]
      exact ih (r ^^^ a) (s ^^^ a) _ _ _

/-- `gf_mul a` distributes over XOR in its second argument. -/
lemma gf_mul_xor (a b c : Nat) : gf_mul a (b ^^^ c) = gf_mul a b ^^^ gf_mul a c := by
  have h := gfLoop_xor_general 8 0 0 a b c
  simpa using h

lemma gfLoop_lt : ∀ n r a b : Nat, r < 256 → a < 256 → gfLoop n r a b < 256 := by
  intro n
  induction n with
  | zero => intro r a b hr _; simpa [gfLoop] using hr
  | succ n ih =>
    intro r a b hr ha
    simp only [gfLoop]
    apply ih
    · split
      · exact xor_lt_256 hr ha
      · exact hr
    · split
      · exact xor_lt_256 (Nat.mod_lt _ (by norm_num)) (by norm_num)
      · exact Nat.mod_lt _ (by norm_num)

lemma gf_mul_lt (a b : Nat) (ha : a < 256) : gf_mul a b < 256 :=
  gfLoop_lt 8 0 a b (by norm_num) ha

lemma mixInvFact00 : ∀ x < 256, gf_mul 0x0e (gf_mul 0x02 x) ^^^ gf_mul 0x0b x ^^^ gf_mul 0x0d x ^^^ gf_mul 0x09 (gf_mul 0x03 x) = x := by decide

lemma mixInvFact01 : ∀ x < 256, gf_mul 0x0e (gf_mul 0x03 x) ^^^ gf_mul 0x0b (gf_mul 0x02 x) ^^^ gf_mul 0x0d x ^^^ gf_mul 0x09 x = 0 := by decide

lemma mixInvFact02 : ∀ x < 256, gf_mul 0x0e x ^^^ gf_mul 0x0b (gf_mul 0x03 x) ^^^ gf_mul 0x0d (gf_mul 0x02 x) ^^^ gf_mul 0x09 x = 0 := by decide

lemma mixInvFact03 : ∀ x < 256, gf_mul 0x0e x ^^^ gf_mul 0x0b x ^^^ gf_mul 0x0d (gf_mul 0x03 x) ^^^ gf_mul 0x09 (gf_mul 0x02 x) = 0 := by decide

lemma mixInvFact10 : ∀ x < 256, gf_mul 0x09 (gf_mul 0x02 x) ^^^ gf_mul 0x0e x ^^^ gf_mul 0x0b x ^^^ gf_mul 0x0d (gf_mul 0x03 x) = 0 := by decide

lemma mixInvFact11 : ∀ x < 256, gf_mul 0x09 (gf_mul 0x03 x) ^^^ gf_mul 0x0e (gf_mul 0x02 x) ^^^ gf_mul 0x0b x ^^^ gf_mul 0x0d x = x := by decide

lemma mixInvFact12 : ∀ x < 256, gf_mul 0x09 x ^^^ gf_mul 0x0e (gf_mul 0x03 x) ^^^ gf_mul 0x0b (gf_mul 0x02 x) ^^^ gf_mul 0x0d x = 0 := by decide

lemma mixInvFact13 : ∀ x < 256, gf_mul 0x09 x ^^^ gf_mul 0x0e x ^^^ gf_mul 0x0b (gf_mul 0x03 x) ^^^ gf_mul 0x0d (gf_mul 0x02 x) = 0 := by decide

lemma mixInvFact20 : ∀ x < 256, gf_mul 0x0d (gf_mul 0x02 x) ^^^ gf_mul 0x09 x ^^^ gf_mul 0x0e x ^^^ gf_mul 0x0b (gf_mul 0x03 x) = 0 := by decide

lemma mixInvFact21 : ∀ x < 256, gf_mul 0x0d (gf_mul 0x03 x) ^^^ gf_mul 0x09 (gf_mul 0x02 x) ^^^ gf_mul 0x0e x ^^^ gf_mul 0x0b x = 0 := by decide

lemma mixInvFact22 : ∀ x < 256, gf_mul 0x0d x ^^^ gf_mul 0x09 (gf_mul 0x03 x) ^^^ gf_mul 0x0e (gf_mul 0x02 x) ^^^ gf_mul 0x0b x = x := by decide

lemma mixInvFact23 : ∀ x < 256, gf_mul 0x0d x ^^^ gf_mul 0x09 x ^^^ gf_mul 0x0e (gf_mul 0x03 x) ^^^ gf_mul 0x0b (gf_mul 0x02 x) = 0 := by decide

lemma mixInvFact30 : ∀ x < 256, gf_mul 0x0b (gf_mul 0x02 x) ^^^ gf_mul 0x0d x ^^^ gf_mul 0x09 x ^^^ gf_mul 0x0e (gf_mul 0x03 x) = 0 := by decide

lemma mixInvFact31 : ∀ x < 256, gf_mul 0x0b (gf_mul 0x03 x) ^^^ gf_mul 0x0d (gf_mul 0x02 x) ^^^ gf_mul 0x09 x ^^^ gf_mul 0x0e x = 0 := by decide

lemma mixInvFact32 : ∀ x < 256, gf_mul 0x0b x ^^^ gf_mul 0x0d (gf_mul 0x03 x) ^^^ gf_mul 0x09 (gf_mul 0x02 x) ^^^ gf_mul 0x0e x = 0 := by decide

lemma mixInvFact33 : ∀ x < 256, gf_mul 0x0b x ^^^ gf_mul 0x0d x ^^^ gf_mul 0x09 (gf_mul 0x03 x) ^^^ gf_mul 0x0e (gf_mul 0x02 x) = x := by decide

lemma invMixRow0 (s0 s1 s2 s3 : Nat) (h0 : s0 < 256) (h1 : s1 < 256) (h2 : s2 < 256) (h3 : s3 < 256) :
    gf_mul 0x0e (gf_mul 0x02 s0 ^^^ gf_mul 0x03 s1 ^^^ s2 ^^^ s3) ^^^
    gf_mul 0x0b (s0 ^^^ gf_mul 0x02 s1 ^^^ gf_mul 0x03 s2 ^^^ s3) ^^^
    gf_mul 0x0d (s0 ^^^ s1 ^^^ gf_mul 0x02 s2 ^^^ gf_mul 0x03 s3) ^^^
    gf_mul 0x09 (gf_mul 0x03 s0 ^^^ s1 ^^^ s2 ^^^ gf_mul 0x02 s3) = s0 := by
  have k0 := mixInvFact00 s0 h0
  have k1 := mixInvFact01 s1 h1
  have k2 := mixInvFact02 s2 h2
  have k3 := mixInvFact03 s3 h3
  have hall : (gf_mul 0x0e (gf_mul 0x02 s0) ^^^ gf_mul 0x0b s0 ^^^ gf_mul 0x0d s0 ^^^ gf_mul 0x09 (gf_mul 0x03 s0)) ^^^
      (gf_mul 0x0e (gf_mul 0x03 s1) ^^^ gf_mul 0x0b (gf_mul 0x02 s1) ^^^ gf_mul 0x0d s1 ^^^ gf_mul 0x09 s1) ^^^
      (gf_mul 0x0e s2 ^^^ gf_mul 0x0b (gf_mul 0x03 s2) ^^^ gf_mul 0x0d (gf_mul 0x02 s2) ^^^ gf_mul 0x09 s2) ^^^
      (gf_mul 0x0e s3 ^^^ gf_mul 0x0b s3 ^^^ gf_mul 0x0d (gf_mul 0x03 s3) ^^^ gf_mul 0x09 (gf_mul 0x02 s3)) = s0 := by
    rw [k0, k1, k2, k3]
    simp
  simp only [gf_mul_xor]
  conv_rhs => rw [← hall]
  simp only [Nat.xor_assoc, Nat.xor_comm, xor_left_comm]

lemma invMixRow1 (s0 s1 s2 s3 : Nat) (h0 : s0 < 256) (h1 : s1 < 256) (h2 : s2 < 256) (h3 : s3 < 256) :
    gf_mul 0x09 (gf_mul 0x02 s0 ^^^ gf_mul 0x03 s1 ^^^ s2 ^^^ s3) ^^^
    gf_mul 0x0e (s0 ^^^ gf_mul 0x02 s1 ^^^ gf_mul 0x03 s2 ^^^ s3) ^^^
    gf_mul 0x0b (s0 ^^^ s1 ^^^ gf_mul 0x02 s2 ^^^ gf_mul 0x03 s3) ^^^
    gf_mul 0x0d (gf_mul 0x03 s0 ^^^ s1 ^^^ s2 ^^^ gf_mul 0x02 s3) = s1 := by
  have k0 := mixInvFact10 s0 h0
  have k1 := mixInvFact11 s1 h1
  have k2 := mixInvFact12 s2 h2
  have k3 := mixInvFact13 s3 h3
  have hall : (gf_mul 0x09 (gf_mul 0x02 s0) ^^^ gf_mul 0x0e s0 ^^^ gf_mul 0x0b s0 ^^^ gf_mul 0x0d (gf_mul 0x03 s0)) ^^^
      (gf_mul 0x09 (gf_mul 0x03 s1) ^^^ gf_mul 0x0e (gf_mul 0x02 s1) ^^^ gf_mul 0x0b s1 ^^^ gf_mul 0x0d s1) ^^^
      (gf_mul 0x09 s2 ^^^ gf_mul 0x0e (gf_mul 0x03 s2) ^^^ gf_mul 0x0b (gf_mul 0x02 s2) ^^^ gf_mul 0x0d s2) ^^^
      (gf_mul 0x09 s3 ^^^ gf_mul 0x0e s3 ^^^ gf_mul 0x0b (gf_mul 0x03 s3) ^^^ gf_mul 0x0d (gf_mul 0x02 s3)) = s1 := by
    rw [k0, k1, k2, k3]
    simp
  simp only [gf_mul_xor]
  conv_rhs => rw [← hall]
  simp only [Nat.xor_assoc, Nat.xor_comm, xor_left_comm]

lemma invMixRow2 (s0 s1 s2 s3 : Nat) (h0 : s0 < 256) (h1 : s1 < 256) (h2 : s2 < 256) (h3 : s3 < 256) :
    gf_mul 0x0d (gf_mul 0x02 s0 ^^^ gf_mul 0x03 s1 ^^^ s2 ^^^ s3) ^^^
    gf_mul 0x09 (s0 ^^^ gf_mul 0x02 s1 ^^^ gf_mul 0x03 s2 ^^^ s3) ^^^
    gf_mul 0x0e (s0 ^^^ s1 ^^^ gf_mul 0x02 s2 ^^^ gf_mul 0x03 s3) ^^^
    gf_mul 0x0b (gf_mul 0x03 s0 ^^^ s1 ^^^ s2 ^^^ gf_mul 0x02 s3) = s2 := by
  have k0 := mixInvFact20 s0 h0
  have k1 := mixInvFact21 s1 h1
  have k2 := mixInvFact22 s2 h2
  have k3 := mixInvFact23 s3 h3
  have hall : (gf_mul 0x0d (gf_mul 0x02 s0) ^^^ gf_mul 0x09 s0 ^^^ gf_mul 0x0e s0 ^^^ gf_mul 0x0b (gf_mul 0x03 s0)) ^^^
      (gf_mul 0x0d (gf_mul 0x03 s1) ^^^ gf_mul 0x09 (gf_mul 0x02 s1) ^^^ gf_mul 0x0e s1 ^^^ gf_mul 0x0b s1) ^^^
      (gf_mul 0x0d s2 ^^^ gf_mul 0x09 (gf_mul 0x03 s2) ^^^ gf_mul 0x0e (gf_mul 0x02 s2) ^^^ gf_mul 0x0b s2) ^^^
      (gf_mul 0x0d s3 ^^^ gf_mul 0x09 s3 ^^^ gf_mul 0x0e (gf_mul 0x03 s3) ^^^ gf_mul 0x0b (gf_mul 0x02 s3)) = s2 := by
    rw [k0, k1, k2, k3]
    simp
  simp only [gf_mul_xor]
  conv_rhs => rw [← hall]
  simp only [Nat.xor_assoc, Nat.xor_comm, xor_left_comm]

lemma invMixRow3 (s0 s1 s2 s3 : Nat) (h0 : s0 < 256) (h1 : s1 < 256) (h2 : s2 < 256) (h3 : s3 < 256) :
    gf_mul 0x0b (gf_mul 0x02 s0 ^^^ gf_mul 0x03 s1 ^^^ s2 ^^^ s3) ^^^
    gf_mul 0x0d (s0 ^^^ gf_mul 0x02 s1 ^^^ gf_mul 0x03 s2 ^^^ s3) ^^^
    gf_mul 0x09 (s0 ^^^ s1 ^^^ gf_mul 0x02 s2 ^^^ gf_mul 0x03 s3) ^^^
    gf_mul 0x0e (gf_mul 0x03 s0 ^^^ s1 ^^^ s2 ^^^ gf_mul 0x02 s3) = s3 := by
  have k0 := mixInvFact30 s0 h0
  have k1 := mixInvFact31 s1 h1
  have k2 := mixInvFact32 s2 h2
  have k3 := mixInvFact33 s3 h3
  have hall : (gf_mul 0x0b (gf_mul 0x02 s0) ^^^ gf_mul 0x0d s0 ^^^ gf_mul 0x09 s0 ^^^ gf_mul 0x0e (gf_mul 0x03 s0)) ^^^
      (gf_mul 0x0b (gf_mul 0x03 s1) ^^^ gf_mul 0x0d (gf_mul 0x02 s1) ^^^ gf_mul 0x09 s1 ^^^ gf_mul 0x0e s1) ^^^
      (gf_mul 0x0b s2 ^^^ gf_mul 0x0d (gf_mul 0x03 s2) ^^^ gf_mul 0x09 (gf_mul 0x02 s2) ^^^ gf_mul 0x0e s2) ^^^
      (gf_mul 0x0b s3 ^^^ gf_mul 0x0d s3 ^^^ gf_mul 0x09 (gf_mul 0x03 s3) ^^^ gf_mul 0x0e (gf_mul 0x02 s3)) = s3 := by
    rw [k0, k1, k2, k3]
    simp
  simp only [gf_mul_xor]
  conv_rhs => rw [← hall]
  simp only [Nat.xor_assoc, Nat.xor_comm, xor_left_comm]


end GaloisField

section StateLemmas

/-- All bytes of a byte string are in `0..256` (the `u8` range). -/
@[reducible] def bytesOk (l : List Nat) : Prop := ∀ b ∈ l, b < 256

lemma getD_lt_256 (l : List Nat) (h : bytesOk l) : ∀ i, l.getD i 0 < 256 := by
  induction l with
  | nil => intro i; simp [List.getD]
  | cons a l ih =>
    intro i
    cases i with
    | zero => simpa using h a (List.mem_cons_self a l)
    | succ i => simpa using ih (fun b hb => h b (List.mem_cons_of_mem a hb)) i

lemma sbox_lt (x : Nat) : sbox x < 256 := getD_lt_256 S_BOX (by decide) x

lemma inv_sbox_lt (x : Nat) : inv_sbox x < 256 := getD_lt_256 INV_S_BOX (by decide) x

/-- The inverse S-box undoes the S-box on every byte value. -/
lemma sbox_roundtrip : ∀ x < 256, inv_sbox (sbox x) = x := by decide

/-- All 16 state bytes are in the `u8` range. -/
@[reducible] def StB (s : AesState) : Prop :=
  s.a00 < 256 ∧ s.a01 < 256 ∧ s.a02 < 256 ∧ s.a03 < 256 ∧ s.a10 < 256 ∧ s.a11 < 256 ∧ s.a12 < 256 ∧ s.a13 < 256 ∧ s.a20 < 256 ∧ s.a21 < 256 ∧ s.a22 < 256 ∧ s.a23 < 256 ∧ s.a30 < 256 ∧ s.a31 < 256 ∧ s.a32 < 256 ∧ s.a33 < 256

lemma bytes_to_state_StB (l : List Nat) (h : bytesOk l) : StB (bytes_to_state l) := by
  refine ⟨?_, ?_, ?_, ?_, ?_, ?_, ?_, ?_, ?_, ?_, ?_, ?_, ?_, ?_, ?_, ?_⟩ <;> exact getD_lt_256 l h _

lemma state_to_bytes_bytesOk (s : AesState) (h : StB s) : bytesOk (state_to_bytes s) := by
  obtain ⟨h00,h01,h02,h03,h10,h11,h12,h13,h20,h21,h22,h23,h30,h31,h32,h33⟩ := h
  intro b hb
  simp only [state_to_bytes, List.mem_cons, List.not_mem_nil, or_false] at hb
  rcases hb with rfl|rfl|rfl|rfl|rfl|rfl|rfl|rfl|rfl|rfl|rfl|rfl|rfl|rfl|rfl|rfl <;> assumption

lemma sub_bytes_StB (s : AesState) : StB (sub_bytes s) := by
  refine ⟨?_, ?_, ?_, ?_, ?_, ?_, ?_, ?_, ?_, ?_, ?_, ?_, ?_, ?_, ?_, ?_⟩ <;> exact sbox_lt _

lemma shift_rows_StB (s : AesState) (h : StB s) : StB (shift_rows s) := by
  obtain ⟨h00,h01,h02,h03,h10,h11,h12,h13,h20,h21,h22,h23,h30,h31,h32,h33⟩ := h
  exact ⟨h00, h01, h02, h03, h11, h12, h13, h10, h22, h23, h20, h21, h33, h30, h31, h32⟩

lemma mix_columns_StB (s : AesState) (h : StB s) : StB (mix_columns s) := by
  obtain ⟨h00,h01,h02,h03,h10,h11,h12,h13,h20,h21,h22,h23,h30,h31,h32,h33⟩ := h
  refine ⟨?_, ?_, ?_, ?_, ?_, ?_, ?_, ?_, ?_, ?_, ?_, ?_, ?_, ?_, ?_, ?_⟩ <;>
    · simp only [mix_columns]
      repeat' apply xor_lt_256
      all_goals first
        | assumption
        | exact gf_mul_lt _ _ (by norm_num)

lemma add_round_key_StB (ek : List Nat) (r : Nat) (s : AesState) (hek : bytesOk ek)
    (h : StB s) : StB (add_round_key ek r s) := by
  obtain ⟨h00,h01,h02,h03,h10,h11,h12,h13,h20,h21,h22,h23,h30,h31,h32,h33⟩ := h
  refine ⟨?_, ?_, ?_, ?_, ?_, ?_, ?_, ?_, ?_, ?_, ?_, ?_, ?_, ?_, ?_, ?_⟩ <;>
    exact xor_lt_256 (by assumption) (getD_lt_256 ek hek _)

lemma add_round_key_add_round_key (ek : List Nat) (r : Nat) (s : AesState) :
    add_round_key ek r (add_round_key ek r s) = s := by
  cases s
  simp [add_round_key, Nat.xor_assoc, Nat.xor_self, Nat.xor_zero]

lemma inv_shift_shift (s : AesState) : inv_shift_rows (shift_rows s) = s := rfl

lemma inv_sub_sub (s : AesState) (h : StB s) : inv_sub_bytes (sub_bytes s) = s := by
  obtain ⟨a00,a01,a02,a03,a10,a11,a12,a13,a20,a21,a22,a23,a30,a31,a32,a33⟩ := s
  obtain ⟨h00,h01,h02,h03,h10,h11,h12,h13,h20,h21,h22,h23,h30,h31,h32,h33⟩ := h
  simp only [sub_bytes, inv_sub_bytes, AesState.mk.injEq]
  exact ⟨sbox_roundtrip _ h00, sbox_roundtrip _ h01, sbox_roundtrip _ h02, sbox_roundtrip _ h03, sbox_roundtrip _ h10, sbox_roundtrip _ h11, sbox_roundtrip _ h12, sbox_roundtrip _ h13, sbox_roundtrip _ h20, sbox_roundtrip _ h21, sbox_roundtrip _ h22, sbox_roundtrip _ h23, sbox_roundtrip _ h30, sbox_roundtrip _ h31, sbox_roundtrip _ h32, sbox_roundtrip _ h33⟩

lemma inv_mix_mix (s : AesState) (h : StB s) : inv_mix_columns (mix_columns s) = s := by
  obtain ⟨a00,a01,a02,a03,a10,a11,a12,a13,a20,a21,a22,a23,a30,a31,a32,a33⟩ := s
  obtain ⟨h00,h01,h02,h03,h10,h11,h12,h13,h20,h21,h22,h23,h30,h31,h32,h33⟩ := h
  simp only [mix_columns, inv_mix_columns, AesState.mk.injEq]
  refine ⟨?_, ?_, ?_, ?_, ?_, ?_, ?_, ?_, ?_, ?_, ?_, ?_, ?_, ?_, ?_, ?_⟩
  · exact invMixRow0 a00 a10 a20 a30 h00 h10 h20 h30
  · exact invMixRow0 a01 a11 a21 a31 h01 h11 h21 h31
  · exact invMixRow0 a02 a12 a22 a32 h02 h12 h22 h32
  · exact invMixRow0 a03 a13 a23 a33 h03 h13 h23 h33
  · exact invMixRow1 a00 a10 a20 a30 h00 h10 h20 h30
  · exact invMixRow1 a01 a11 a21 a31 h01 h11 h21 h31
  · exact invMixRow1 a02 a12 a22 a32 h02 h12 h22 h32
  · exact invMixRow1 a03 a13 a23 a33 h03 h13 h23 h33
  · exact invMixRow2 a00 a10 a20 a30 h00 h10 h20 h30
  · exact invMixRow2 a01 a11 a21 a31 h01 h11 h21 h31
  · exact invMixRow2 a02 a12 a22 a32 h02 h12 h22 h32
  · exact invMixRow2 a03 a13 a23 a33 h03 h13 h23 h33
  · exact invMixRow3 a00 a10 a20 a30 h00 h10 h20 h30
  · exact invMixRow3 a01 a11 a21 a31 h01 h11 h21 h31
  · exact invMixRow3 a02 a12 a22 a32 h02 h12 h22 h32
  · exact invMixRow3 a03 a13 a23 a33 h03 h13 h23 h33

end StateLemmas

section BlockRoundTrip

lemma bytes_state_bytes (s : AesState) : bytes_to_state (state_to_bytes s) = s := rfl

lemma state_bytes_state (l : List Nat) (h : l.length = 16) :
    state_to_bytes (bytes_to_state l) = l := by
  rcases l with _ | ⟨b0, l⟩
  · simp only [List.length_nil, List.length_cons] at h; omega
  rcases l with _ | ⟨b1, l⟩
  · simp only [List.length_nil, List.length_cons] at h; omega
  rcases l with _ | ⟨b2, l⟩
  · simp only [List.length_nil, List.length_cons] at h; omega
  rcases l with _ | ⟨b3, l⟩
  · simp only [List.length_nil, List.length_cons] at h; omega
  rcases l with _ | ⟨b4, l⟩
  · simp only [List.length_nil, List.length_cons] at h; omega
  rcases l with _ | ⟨b5, l⟩
  · simp only [List.length_nil, List.length_cons] at h; omega
  rcases l with _ | ⟨b6, l⟩
  · simp only [List.length_nil, List.length_cons] at h; omega
  rcases l with _ | ⟨b7, l⟩
  · simp only [List.length_nil, List.length_cons] at h; omega
  rcases l with _ | ⟨b8, l⟩
  · simp only [List.length_nil, List.length_cons] at h; omega
  rcases l with _ | ⟨b9, l⟩
  · simp only [List.length_nil, List.length_cons] at h; omega
  rcases l with _ | ⟨b10, l⟩
  · simp only [List.length_nil, List.length_cons] at h; omega
  rcases l with _ | ⟨b11, l⟩
  · simp only [List.length_nil, List.length_cons] at h; omega
  rcases l with _ | ⟨b12, l⟩
  · simp only [List.length_nil, List.length_cons] at h; omega
  rcases l with _ | ⟨b13, l⟩
  · simp only [List.length_nil, List.length_cons] at h; omega
  rcases l with _ | ⟨b14, l⟩
  · simp only [List.length_nil, List.length_cons] at h; omega
  rcases l with _ | ⟨b15, l⟩
  · simp only [List.length_nil, List.length_cons] at h; omega
  rcases l with _ | ⟨b16, l⟩
  · rfl
  · simp only [List.length_cons] at h; omega

lemma encRound_StB (ek : List Nat) (r : Nat) (s : AesState) (hek : bytesOk ek) (h : StB s) :
    StB (encRound ek s r) :=
  add_round_key_StB ek r _ hek (mix_columns_StB _ (shift_rows_StB _ (sub_bytes_StB s)))

lemma foldl_encRound_StB (ek : List Nat) (hek : bytesOk ek) :
    ∀ (rs : List Nat) (s : AesState), StB s → StB (rs.foldl (encRound ek) s) := by
  intro rs
  induction rs with
  | nil => intro s hs; exact hs
  | cons r rs ih => intro s hs; exact ih _ (encRound_StB ek r s hek hs)

/-- One inverse round undoes one forward round. -/
lemma decRound_encRound (ek : List Nat) (r : Nat) (s : AesState) (hek : bytesOk ek)
    (h : StB s) : decRound ek (encRound ek s r) r = s := by
  show inv_sub_bytes (inv_shift_rows (inv_mix_columns (add_round_key ek r
    (add_round_key ek r (mix_columns (shift_rows (sub_bytes s))))))) = s
  rw [add_round_key_add_round_key,
    inv_mix_mix _ (shift_rows_StB _ (sub_bytes_StB s)), inv_shift_shift]
  exact inv_sub_sub s h

/-- The backwards fold of inverse rounds undoes the forward fold of rounds. -/
lemma foldl_roundtrip (ek : List Nat) (hek : bytesOk ek) :
    ∀ (rs : List Nat) (s : AesState), StB s →
      rs.reverse.foldl (decRound ek) (rs.foldl (encRound ek) s) = s := by
  intro rs
  induction rs with
  | nil => intro s _; rfl
  | cons r rs ih =>
    intro s hs
    simp only [List.reverse_cons, List.foldl_cons, List.foldl_append, List.foldl_nil]
    rw [ih (encRound ek s r) (encRound_StB ek r s hek hs)]
    exact decRound_encRound ek r s hek hs

lemma bytesOk_append {l m : List Nat} (hl : bytesOk l) (hm : bytesOk m) : bytesOk (l ++ m) := by
  intro b hb
  rcases List.mem_append.mp hb with h | h
  · exact hl b h
  · exact hm b h

lemma nextWord_bytesOk (ek : List Nat) (h : bytesOk ek) : bytesOk (nextWord ek) := by
  simp only [nextWord]
  split <;> intro b hb <;>
    simp only [List.mem_cons, List.not_mem_nil, or_false] at hb <;>
    rcases hb with rfl | rfl | rfl | rfl <;>
    first
      | exact xor_lt_256 (getD_lt_256 ek h _)
          (xor_lt_256 (sbox_lt _) (getD_lt_256 RCON (by decide) _))
      | exact xor_lt_256 (getD_lt_256 ek h _) (sbox_lt _)
      | exact xor_lt_256 (getD_lt_256 ek h _) (getD_lt_256 ek h _)

lemma ekUpTo_bytesOk (key : List Nat) (h : bytesOk key) : ∀ n, bytesOk (ekUpTo key n) := by
  intro n
  induction n with
  | zero => exact h
  | succ n ih => exact bytesOk_append ih (nextWord_bytesOk _ ih)

lemma key_expansion_bytesOk (key : List Nat) (h : bytesOk key) : bytesOk (key_expansion key) :=
  ekUpTo_bytesOk key h 40

lemma encrypt_block_bytesOk (ek block : List Nat) (hek : bytesOk ek) (hb : bytesOk block) :
    bytesOk (encrypt_block ek block) := by
  simp only [encrypt_block]
  exact state_to_bytes_bytesOk _ (add_round_key_StB _ _ _ hek (shift_rows_StB _
    (sub_bytes_StB _)))

lemma encrypt_block_length (ek block : List Nat) : (encrypt_block ek block).length = 16 := rfl

end BlockRoundTrip

/-- C1: with the FIPS-197 key `2b7e151628aed2a6abf7158809cf4f3c`, `encrypt_block`
maps plaintext `3243f6a8885a308d313198a2e0370734` to ciphertext
`3925841d02dc09fbdc118597196a0b32`, and `decrypt_block` under the same key maps
the ciphertext back to the plaintext. -/
theorem claim_C1 :
    encrypt_block (key_expansion fipsKey) fipsPlain = fipsCipher ∧
    decrypt_block (key_expansion fipsKey) fipsCipher = fipsPlain := by
  constructor <;> decide

/-- `decrypt_block` undoes `encrypt_block` for any expanded key made of bytes
and any 16-byte block. -/
lemma decrypt_encrypt_block (ek block : List Nat) (hek : bytesOk ek) (hb : bytesOk block)
    (hlen : block.length = 16) : decrypt_block ek (encrypt_block ek block) = block := by
  have hs0 : StB (add_round_key ek 0 (bytes_to_state block)) :=
    add_round_key_StB _ 0 _ hek (bytes_to_state_StB block hb)
  have hsE : StB ((List.range' 1 9).foldl (encRound ek)
      (add_round_key ek 0 (bytes_to_state block))) :=
    foldl_encRound_StB _ hek _ _ hs0
  simp only [encrypt_block, decrypt_block]
  rw [bytes_state_bytes, add_round_key_add_round_key, inv_shift_shift,
    inv_sub_sub _ hsE, foldl_roundtrip _ hek _ _ hs0, add_round_key_add_round_key]
  exact state_bytes_state block hlen

/-- C2: for every 16-byte key and every 16-byte block, `decrypt_block` with the
expanded key undoes `encrypt_block` with the same expanded key. -/
theorem claim_C2 (key p : List Nat) (hkey : key.length = 16) (hp : p.length = 16)
    (hkeyb : ∀ b ∈ key, b < 256) (hpb : ∀ b ∈ p, b < 256) :
    decrypt_block (key_expansion key) (encrypt_block (key_expansion key) p) = p :=
  decrypt_encrypt_block _ _ (key_expansion_bytesOk key hkeyb) hpb hp

/-- Witness for C2 at the FIPS-197 key and plaintext. -/
theorem claim_C2_witness :
    decrypt_block (key_expansion fipsKey) (encrypt_block (key_expansion fipsKey) fipsPlain) =
      fipsPlain :=
  claim_C2 fipsKey fipsPlain (by decide) (by decide) (by decide) (by decide)

/-- `decrypt_block` in the round ordering stated by the specification §4.2:
AddRoundKey(10); for round 9 down to 1: InvShiftRows, InvSubBytes,
AddRoundKey(round), InvMixColumns; finally InvShiftRows, InvSubBytes,
AddRoundKey(0). -/
def decrypt_block_specOrder (ek : List Nat) (block : List Nat) : List Nat :=
  let s := add_round_key ek 10 (bytes_to_state block)
  let s := (List.range' 1 9).reverse.foldl
    (fun s round => inv_mix_columns (add_round_key ek round
      (inv_sub_bytes (inv_shift_rows s)))) s
  state_to_bytes (add_round_key ek 0 (inv_sub_bytes (inv_shift_rows s)))

/-- C6: the implemented `decrypt_block` round ordering computes the same
function as the specification's ordering (the two groupings of the same
operation sequence coincide). -/
theorem claim_C6 (ek block : List Nat) :
    decrypt_block ek block = decrypt_block_specOrder ek block := rfl

section Modes

/-- `cbc_encrypt`: for each full 16-byte chunk, XOR with the previous ciphertext
block (initially the IV), encrypt, and chain; `chunks_exact_mut` leaves any
trailing sub-block bytes untouched. -/
def cbc_encrypt (ek : List Nat) (data : List Nat) (prev_block : List Nat) : List Nat :=
  if data.length < 16 then data
  else
    let chunk := List.zipWith (fun x y => x ^^^ y) (data.take 16) prev_block
    let c := encrypt_block ek chunk
    c ++ cbc_encrypt ek (data.drop 16) c
termination_by data.length
decreasing_by simp [List.length_drop]; omega

/-- `cbc_decrypt`: decrypt each full chunk and XOR with the previous ciphertext
block (initially the IV). -/
def cbc_decrypt (ek : List Nat) (data : List Nat) (prev_block : List Nat) : List Nat :=
  if data.length < 16 then data
  else
    let current_cipher := data.take 16
    let block := List.zipWith (fun x y => x ^^^ y) (decrypt_block ek current_cipher) prev_block
    block ++ cbc_decrypt ek (data.drop 16) current_cipher
termination_by data.length
decreasing_by simp [List.length_drop]; omega

/-- `cfb_encrypt`: encrypt the shift register, XOR into the chunk, and feed the
ciphertext chunk back as the next register value. -/
def cfb_encrypt (ek : List Nat) (data : List Nat) (shift_register : List Nat) : List Nat :=
  if data.length < 16 then data
  else
    let keystream := encrypt_block ek shift_register
    let c := List.zipWith (fun x y => x ^^^ y) (data.take 16) keystream
    c ++ cfb_encrypt ek (data.drop 16) c
termination_by data.length
decreasing_by simp [List.length_drop]; omega

/-- `cfb_decrypt`: same keystream; the register is fed from the incoming
ciphertext chunk. -/
def cfb_decrypt (ek : List Nat) (data : List Nat) (shift_register : List Nat) : List Nat :=
  if data.length < 16 then data
  else
    let keystream := encrypt_block ek shift_register
    let current_cipher := data.take 16
    List.zipWith (fun x y => x ^^^ y) current_cipher keystream ++ cfb_decrypt ek (data.drop 16) current_cipher
termination_by data.length
decreasing_by simp [List.length_drop]; omega

/-- `u128::from_be_bytes`: big-endian bytes to integer. -/
def u128_from_be (l : List Nat) : Nat := l.foldl (fun acc b => acc * 256 + b) 0

/-- `u128::to_be_bytes`: integer to 16 big-endian bytes. -/
def u128_to_be (n : Nat) : List Nat := (List.range 16).map (fun i => n / 256 ^ (15 - i) % 256)

/-- The `ctr_encrypt_decrypt` loop over an explicit counter: encrypt the
counter's big-endian bytes, XOR into the chunk, and `wrapping_add(1)`
(modelled as `% 2^128`). -/
def ctrGo (ek : List Nat) (counter : Nat) (data : List Nat) : List Nat :=
  if data.length < 16 then data
  else
    let counter_block := encrypt_block ek (u128_to_be counter)
    List.zipWith (fun x y => x ^^^ y) (data.take 16) counter_block ++
      ctrGo ek ((counter + 1) % 2 ^ 128) (data.drop 16)
termination_by data.length
decreasing_by simp [List.length_drop]; omega

/-- `ctr_encrypt_decrypt`: the counter starts from the nonce read as a
big-endian `u128`. -/
def ctr_encrypt_decrypt (ek : List Nat) (data : List Nat) (nonce : List Nat) : List Nat :=
  ctrGo ek (u128_from_be nonce) data

/-- The CTR keystream: `n` encrypted counter blocks starting at `counter`,
incrementing modulo `2^128`. -/
def ctr_keystream (ek : List Nat) (counter : Nat) : Nat → List Nat
  | 0 => []
  | n + 1 => encrypt_block ek (u128_to_be counter) ++
      ctr_keystream ek ((counter + 1) % 2 ^ 128) n


lemma zipWith_xor_cancel : ∀ (a b : List Nat), a.length ≤ b.length →
    List.zipWith (fun x y => x ^^^ y) (List.zipWith (fun x y => x ^^^ y) a b) b = a := by
  intro a
  induction a with
  | nil => intro b _; simp
  | cons x a ih =>
    intro b hb
    cases b with
    | nil => simp at hb
    | cons y b =>
      simp only [List.zipWith_cons_cons]
      rw [Nat.xor_cancel_right, ih b (by simpa using hb)]

lemma bytesOk_take (l : List Nat) (h : bytesOk l) (n : Nat) : bytesOk (l.take n) :=
  fun b hb => h b (List.take_subset n l hb)

lemma bytesOk_drop (l : List Nat) (h : bytesOk l) (n : Nat) : bytesOk (l.drop n) :=
  fun b hb => h b (List.drop_subset n l hb)

lemma bytesOk_zipWith_xor : ∀ (a b : List Nat), bytesOk a → bytesOk b →
    bytesOk (List.zipWith (fun x y => x ^^^ y) a b) := by
  intro a
  induction a with
  | nil => intro b _ _; intro z hz; simp at hz
  | cons x a ih =>
    intro b ha hb
    cases b with
    | nil => intro z hz; simp at hz
    | cons y b =>
      intro z hz
      simp only [List.zipWith_cons_cons, List.mem_cons] at hz
      rcases hz with rfl | hz
      · exact xor_lt_256 (ha x (List.mem_cons_self x a)) (hb y (List.mem_cons_self y b))
      · exact ih b (fun u hu => ha u (List.mem_cons_of_mem x hu))
          (fun u hu => hb u (List.mem_cons_of_mem y hu)) z hz


lemma cbc_roundtrip_aux (ek : List Nat) (hek : bytesOk ek) :
    ∀ (n : Nat) (data prev : List Nat), data.length ≤ n → bytesOk data → bytesOk prev →
      prev.length = 16 → cbc_decrypt ek (cbc_encrypt ek data prev) prev = data := by
  intro n
  induction n with
  | zero =>
    intro data prev hn hd hp hpl
    have hl : data.length < 16 := by omega
    rw [cbc_encrypt, if_pos hl, cbc_decrypt, if_pos hl]
  | succ n ih =>
    intro data prev hn hd hp hpl
    by_cases hl : data.length < 16
    · rw [cbc_encrypt, if_pos hl, cbc_decrypt, if_pos hl]
    · rw [cbc_encrypt]
      simp only [if_neg hl]
      have hTlen : (data.take 16).length = 16 := by
        rw [List.length_take]; omega
      have hclen : (List.zipWith (fun x y => x ^^^ y) (data.take 16) prev).length = 16 := by
        rw [List.length_zipWith, hTlen, hpl]; omega
      have hcb : bytesOk (List.zipWith (fun x y => x ^^^ y) (data.take 16) prev) :=
        bytesOk_zipWith_xor _ _ (bytesOk_take _ hd _) hp
      rw [cbc_decrypt]
      rw [if_neg (by rw [List.length_append, encrypt_block_length]; omega)]
      simp only
      rw [List.take_left' (encrypt_block_length _ _), List.drop_left' (encrypt_block_length _ _)]
      rw [decrypt_encrypt_block _ _ hek hcb hclen]
      rw [zipWith_xor_cancel _ _ (by rw [hTlen, hpl])]
      rw [ih (data.drop 16) _ (by rw [List.length_drop]; omega) (bytesOk_drop _ hd _)
        (encrypt_block_bytesOk _ _ hek hcb) (encrypt_block_length _ _)]
      exact List.take_append_drop 16 data


lemma cfb_roundtrip_aux (ek : List Nat) :
    ∀ (n : Nat) (data reg : List Nat), data.length ≤ n →
      cfb_decrypt ek (cfb_encrypt ek data reg) reg = data := by
  intro n
  induction n with
  | zero =>
    intro data reg hn
    have hl : data.length < 16 := by omega
    rw [cfb_encrypt, if_pos hl, cfb_decrypt, if_pos hl]
  | succ n ih =>
    intro data reg hn
    by_cases hl : data.length < 16
    · rw [cfb_encrypt, if_pos hl, cfb_decrypt, if_pos hl]
    · rw [cfb_encrypt]
      simp only [if_neg hl]
      have hTlen : (data.take 16).length = 16 := by rw [List.length_take]; omega
      have hclen :
          (List.zipWith (fun x y => x ^^^ y) (data.take 16) (encrypt_block ek reg)).length = 16 := by
        rw [List.length_zipWith, hTlen, encrypt_block_length]; omega
      rw [cfb_decrypt]
      rw [if_neg (by rw [List.length_append, hclen]; omega)]
      simp only
      rw [List.take_left' hclen, List.drop_left' hclen]
      rw [zipWith_xor_cancel _ _ (by rw [hTlen, encrypt_block_length])]
      rw [ih (data.drop 16) _ (by rw [List.length_drop]; omega)]
      exact List.take_append_drop 16 data


lemma ctr_roundtrip_aux (ek : List Nat) :
    ∀ (n counter : Nat) (data : List Nat), data.length ≤ n →
      ctrGo ek counter (ctrGo ek counter data) = data := by
  intro n
  induction n with
  | zero =>
    intro counter data hn
    have hl : data.length < 16 := by omega
    have hinner : ctrGo ek counter data = data := by rw [ctrGo, if_pos hl]
    rw [hinner, hinner]
  | succ n ih =>
    intro counter data hn
    by_cases hl : data.length < 16
    · have hinner : ctrGo ek counter data = data := by rw [ctrGo, if_pos hl]
      rw [hinner, hinner]
    · conv_lhs => arg 3; rw [ctrGo]
      simp only [if_neg hl]
      have hTlen : (data.take 16).length = 16 := by rw [List.length_take]; omega
      have hclen : (List.zipWith (fun x y => x ^^^ y) (data.take 16)
          (encrypt_block ek (u128_to_be counter))).length = 16 := by
        rw [List.length_zipWith, hTlen, encrypt_block_length]; omega
      rw [ctrGo]
      rw [if_neg (by rw [List.length_append, hclen]; omega)]
      simp only
      rw [List.take_left' hclen, List.drop_left' hclen]
      rw [zipWith_xor_cancel _ _ (by rw [hTlen, encrypt_block_length])]
      rw [ih _ (data.drop 16) (by rw [List.length_drop]; omega)]
      exact List.take_append_drop 16 data

lemma zipWith_xor_split (data cb X : List Nat) (hcb : cb.length = 16) (hd : 16 ≤ data.length) :
    List.zipWith (fun x y => x ^^^ y) data (cb ++ X) =
      List.zipWith (fun x y => x ^^^ y) (data.take 16) cb ++
        List.zipWith (fun x y => x ^^^ y) (data.drop 16) X := by
  conv_lhs => rw [← List.take_append_drop 16 data]
  rw [List.zipWith_append _ _ _ _ _ (by rw [hcb, List.length_take]; omega)]

/-- Closed form for the CTR loop: XOR with the counter-derived keystream on the
block-aligned prefix; the trailing sub-block chunk is untouched. -/
lemma ctrGo_eq (ek : List Nat) :
    ∀ (n counter : Nat) (data : List Nat), data.length ≤ n →
      ctrGo ek counter data =
        List.zipWith (fun x y => x ^^^ y) data
          (ctr_keystream ek counter (data.length / 16)) ++
          data.drop (16 * (data.length / 16)) := by
  intro n
  induction n with
  | zero =>
    intro counter data hn
    have hl : data.length < 16 := by omega
    rw [ctrGo, if_pos hl]
    rw [Nat.div_eq_of_lt hl]
    simp [ctr_keystream]
  | succ n ih =>
    intro counter data hn
    by_cases hl : data.length < 16
    · rw [ctrGo, if_pos hl]
      rw [Nat.div_eq_of_lt hl]
      simp [ctr_keystream]
    · rw [ctrGo]
      simp only [if_neg hl]
      rw [ih ((counter + 1) % 2 ^ 128) (data.drop 16) (by rw [List.length_drop]; omega)]
      have hq : data.length / 16 = (data.drop 16).length / 16 + 1 := by
        rw [List.length_drop]; omega
      rw [hq]
      simp only [ctr_keystream]
      rw [zipWith_xor_split data _ _ (encrypt_block_length _ _) (by omega)]
      rw [List.append_assoc]
      have hdrop : data.drop (16 * ((data.drop 16).length / 16 + 1)) =
          (data.drop 16).drop (16 * ((data.drop 16).length / 16)) := by
        rw [List.drop_drop]
        congr 1
        ring
      rw [hdrop]

/-- Block `j` of the CTR keystream encrypts the big-endian bytes of
`(counter + j) % 2^128`. -/
lemma ctr_keystream_block (ek : List Nat) :
    ∀ (n counter j : Nat), counter < 2 ^ 128 → j < n →
      ((ctr_keystream ek counter n).drop (16 * j)).take 16 =
        encrypt_block ek (u128_to_be ((counter + j) % 2 ^ 128)) := by
  intro n
  induction n with
  | zero => intro counter j _ hj; omega
  | succ n ih =>
    intro counter j hc hj
    cases j with
    | zero =>
      simp only [ctr_keystream, Nat.mul_zero, List.drop_zero, Nat.add_zero,
        Nat.mod_eq_of_lt hc]
      rw [List.take_left' (encrypt_block_length _ _)]
    | succ j =>
      simp only [ctr_keystream]
      have h16 : 16 * (j + 1) = (encrypt_block ek (u128_to_be counter)).length + 16 * j := by
        rw [encrypt_block_length]; ring
      rw [h16, List.drop_append]
      rw [ih _ j (Nat.mod_lt _ (by norm_num)) (by omega)]
      congr 2
      rw [Nat.mod_add_mod]
      congr 1
      ring


lemma cfb_encrypt_length (ek : List Nat) :
    ∀ (n : Nat) (data reg : List Nat), data.length ≤ n →
      (cfb_encrypt ek data reg).length = data.length := by
  intro n
  induction n with
  | zero =>
    intro data reg hn
    rw [cfb_encrypt, if_pos (by omega : data.length < 16)]
  | succ n ih =>
    intro data reg hn
    by_cases hl : data.length < 16
    · rw [cfb_encrypt, if_pos hl]
    · rw [cfb_encrypt]
      simp only [if_neg hl]
      rw [List.length_append, List.length_zipWith, List.length_take, encrypt_block_length,
        ih (data.drop 16) _ (by rw [List.length_drop]; omega), List.length_drop]
      omega

lemma ctrGo_length (ek : List Nat) :
    ∀ (n counter : Nat) (data : List Nat), data.length ≤ n →
      (ctrGo ek counter data).length = data.length := by
  intro n
  induction n with
  | zero =>
    intro counter data hn
    rw [ctrGo, if_pos (by omega : data.length < 16)]
  | succ n ih =>
    intro counter data hn
    by_cases hl : data.length < 16
    · rw [ctrGo, if_pos hl]
    · rw [ctrGo]
      simp only [if_neg hl]
      rw [List.length_append, List.length_zipWith, List.length_take, encrypt_block_length,
        ih _ (data.drop 16) (by rw [List.length_drop]; omega), List.length_drop]
      omega

lemma cfb_encrypt_tail (ek : List Nat) :
    ∀ (n : Nat) (data reg : List Nat), data.length ≤ n →
      (cfb_encrypt ek data reg).drop (16 * (data.length / 16)) =
        data.drop (16 * (data.length / 16)) := by
  intro n
  induction n with
  | zero =>
    intro data reg hn
    rw [cfb_encrypt, if_pos (by omega : data.length < 16)]
  | succ n ih =>
    intro data reg hn
    by_cases hl : data.length < 16
    · rw [cfb_encrypt, if_pos hl]
    · rw [cfb_encrypt]
      simp only [if_neg hl]
      have hclen :
          (List.zipWith (fun x y => x ^^^ y) (data.take 16) (encrypt_block ek reg)).length = 16 := by
        rw [List.length_zipWith, List.length_take, encrypt_block_length]; omega
      have hsplit : 16 * (data.length / 16) = 16 + 16 * ((data.drop 16).length / 16) := by
        rw [List.length_drop]; omega
      rw [hsplit]
      have h1 : ∀ r : List Nat,
          (List.zipWith (fun x y => x ^^^ y) (data.take 16) (encrypt_block ek reg) ++ r).drop
            (16 + 16 * ((data.drop 16).length / 16)) =
            r.drop (16 * ((data.drop 16).length / 16)) := by
        intro r
        have h := @List.drop_append Nat
          (List.zipWith (fun x y => x ^^^ y) (data.take 16) (encrypt_block ek reg))
          r (16 * ((data.drop 16).length / 16))
        rw [hclen] at h
        exact h
      rw [h1]
      have h2 : data.drop (16 + 16 * ((data.drop 16).length / 16)) =
          (data.drop 16).drop (16 * ((data.drop 16).length / 16)) :=
        (List.drop_drop _ 16 data).symm
      rw [h2]
      exact ih (data.drop 16) _ (by rw [List.length_drop]; omega)

lemma ctrGo_tail (ek : List Nat) :
    ∀ (n counter : Nat) (data : List Nat), data.length ≤ n →
      (ctrGo ek counter data).drop (16 * (data.length / 16)) =
        data.drop (16 * (data.length / 16)) := by
  intro n
  induction n with
  | zero =>
    intro counter data hn
    rw [ctrGo, if_pos (by omega : data.length < 16)]
  | succ n ih =>
    intro counter data hn
    by_cases hl : data.length < 16
    · rw [ctrGo, if_pos hl]
    · rw [ctrGo]
      simp only [if_neg hl]
      have hclen : (List.zipWith (fun x y => x ^^^ y) (data.take 16)
          (encrypt_block ek (u128_to_be counter))).length = 16 := by
        rw [List.length_zipWith, List.length_take, encrypt_block_length]; omega
      have hsplit : 16 * (data.length / 16) = 16 + 16 * ((data.drop 16).length / 16) := by
        rw [List.length_drop]; omega
      rw [hsplit]
      have h1 : ∀ r : List Nat,
          (List.zipWith (fun x y => x ^^^ y) (data.take 16)
              (encrypt_block ek (u128_to_be counter)) ++ r).drop
            (16 + 16 * ((data.drop 16).length / 16)) =
            r.drop (16 * ((data.drop 16).length / 16)) := by
        intro r
        have h := @List.drop_append Nat
          (List.zipWith (fun x y => x ^^^ y) (data.take 16)
            (encrypt_block ek (u128_to_be counter)))
          r (16 * ((data.drop 16).length / 16))
        rw [hclen] at h
        exact h
      rw [h1]
      have h2 : data.drop (16 + 16 * ((data.drop 16).length / 16)) =
          (data.drop 16).drop (16 * ((data.drop 16).length / 16)) :=
        (List.drop_drop _ 16 data).symm
      rw [h2]
      exact ih _ (data.drop 16) (by rw [List.length_drop]; omega)

end Modes

/-- C3: for every 16-byte key, every message, and every 16-byte IV, CBC, CFB and
CTR decryption invert the corresponding encryption, and CTR preserves the exact
input length with no padding. -/
theorem claim_C3 (key m iv : List Nat) (hkey : key.length = 16) (hiv : iv.length = 16)
    (hkeyb : ∀ b ∈ key, b < 256) (hmb : ∀ b ∈ m, b < 256) (hivb : ∀ b ∈ iv, b < 256) :
    cbc_decrypt (key_expansion key) (cbc_encrypt (key_expansion key) m iv) iv = m ∧
    cfb_decrypt (key_expansion key) (cfb_encrypt (key_expansion key) m iv) iv = m ∧
    ctr_encrypt_decrypt (key_expansion key)
      (ctr_encrypt_decrypt (key_expansion key) m iv) iv = m ∧
    (ctr_encrypt_decrypt (key_expansion key) m iv).length = m.length := by
  refine ⟨?_, ?_, ?_, ?_⟩
  · exact cbc_roundtrip_aux _ (key_expansion_bytesOk key hkeyb) m.length m iv le_rfl hmb hivb hiv
  · exact cfb_roundtrip_aux _ m.length m iv le_rfl
  · simp only [ctr_encrypt_decrypt]
    exact ctr_roundtrip_aux _ m.length _ m le_rfl
  · simp only [ctr_encrypt_decrypt]
    exact ctrGo_length _ m.length _ m le_rfl

/-- Witness for C3 at the FIPS key, a 23-byte message, and the FIPS plaintext
as IV. -/
theorem claim_C3_witness :
    cbc_decrypt (key_expansion fipsKey)
      (cbc_encrypt (key_expansion fipsKey) (List.range 23) fipsPlain) fipsPlain =
        List.range 23 ∧
    cfb_decrypt (key_expansion fipsKey)
      (cfb_encrypt (key_expansion fipsKey) (List.range 23) fipsPlain) fipsPlain =
        List.range 23 ∧
    ctr_encrypt_decrypt (key_expansion fipsKey)
      (ctr_encrypt_decrypt (key_expansion fipsKey) (List.range 23) fipsPlain) fipsPlain =
        List.range 23 ∧
    (ctr_encrypt_decrypt (key_expansion fipsKey) (List.range 23) fipsPlain).length =
      (List.range 23).length :=
  claim_C3 fipsKey (List.range 23) fipsPlain (by decide) (by decide) (by decide) (by decide)
    (by decide)

/-- C4 (amended): `cfb_encrypt` and `ctr_encrypt_decrypt` accept any input
length, add no padding, and preserve the exact input length; but the final
incomplete block consumes no keystream bytes and is returned unchanged. -/
theorem claim_C4_amended (ek data iv : List Nat) :
    (cfb_encrypt ek data iv).length = data.length ∧
    (cfb_encrypt ek data iv).drop (16 * (data.length / 16)) =
      data.drop (16 * (data.length / 16)) ∧
    (ctr_encrypt_decrypt ek data iv).length = data.length ∧
    (ctr_encrypt_decrypt ek data iv).drop (16 * (data.length / 16)) =
      data.drop (16 * (data.length / 16)) := by
  refine ⟨cfb_encrypt_length ek data.length data iv le_rfl,
    cfb_encrypt_tail ek data.length data iv le_rfl, ?_, ?_⟩
  · simp only [ctr_encrypt_decrypt]
    exact ctrGo_length ek data.length _ data le_rfl
  · simp only [ctr_encrypt_decrypt]
    exact ctrGo_tail ek data.length _ data le_rfl

/-- C4 counterexample: a 1-byte input passes through CFB and CTR unchanged —
the trailing sub-block consumes no keystream bytes — so the output is not the
input XORed with the first keystream byte, which the claim requires. -/
theorem claim_C4_counterexample :
    cfb_encrypt (key_expansion fipsKey) [0] fipsPlain = [0] ∧
    ctr_encrypt_decrypt (key_expansion fipsKey) [0] fipsPlain = [0] ∧
    cfb_encrypt (key_expansion fipsKey) [0] fipsPlain ≠
      [0 ^^^ (encrypt_block (key_expansion fipsKey) fipsPlain).getD 0 0] ∧
    ctr_encrypt_decrypt (key_expansion fipsKey) [0] fipsPlain ≠
      [0 ^^^ (encrypt_block (key_expansion fipsKey) fipsPlain).getD 0 0] := by
  have h1 : cfb_encrypt (key_expansion fipsKey) [0] fipsPlain = [0] := by
    rw [cfb_encrypt, if_pos (by decide)]
  have h2 : ctr_encrypt_decrypt (key_expansion fipsKey) [0] fipsPlain = [0] := by
    simp only [ctr_encrypt_decrypt]
    rw [ctrGo, if_pos (by decide)]
  have h3 : (encrypt_block (key_expansion fipsKey) fipsPlain).getD 0 0 = 0x39 := by decide
  refine ⟨h1, h2, ?_, ?_⟩
  · rw [h1, h3]; decide
  · rw [h2, h3]; decide

lemma u128_foldl_lt : ∀ (l : List Nat) (acc : Nat), (∀ b ∈ l, b < 256) →
    List.foldl (fun acc b => acc * 256 + b) acc l < (acc + 1) * 256 ^ l.length := by
  intro l
  induction l with
  | nil => intro acc _; simpa using Nat.lt_succ_self acc
  | cons b l ih =>
    intro acc h
    simp only [List.foldl_cons, List.length_cons]
    have hb : b < 256 := h b (List.mem_cons_self b l)
    have h1 := ih (acc * 256 + b) (fun u hu => h u (List.mem_cons_of_mem b hu))
    have h2 : (acc * 256 + b + 1) * 256 ^ l.length ≤ (acc + 1) * 256 ^ (l.length + 1) := by
      rw [pow_succ]
      have : acc * 256 + b + 1 ≤ (acc + 1) * 256 := by nlinarith
      nlinarith [Nat.pos_pow_of_pos l.length (show 0 < 256 by norm_num)]
    omega

lemma u128_from_be_lt (l : List Nat) (hl : l.length = 16) (hb : ∀ b ∈ l, b < 256) :
    u128_from_be l < 2 ^ 128 := by
  have h := u128_foldl_lt l 0 hb
  rw [hl] at h
  simpa [u128_from_be] using h

/-- C9: CTR reads the nonce as a big-endian 128-bit integer, XORs each full
block with the encryption of the running counter, increments by exactly 1 per
block wrapping modulo `2^128`, and always round-trips (wraparound included). -/
theorem claim_C9 (ek data nonce : List Nat) (hnl : nonce.length = 16)
    (hnb : ∀ b ∈ nonce, b < 256) :
    u128_from_be nonce < 2 ^ 128 ∧
    ctr_encrypt_decrypt ek data nonce =
      List.zipWith (fun x y => x ^^^ y) data
        (ctr_keystream ek (u128_from_be nonce) (data.length / 16)) ++
        data.drop (16 * (data.length / 16)) ∧
    (∀ j, j < data.length / 16 →
      ((ctr_keystream ek (u128_from_be nonce) (data.length / 16)).drop (16 * j)).take 16 =
        encrypt_block ek (u128_to_be ((u128_from_be nonce + j) % 2 ^ 128))) ∧
    ctr_encrypt_decrypt ek (ctr_encrypt_decrypt ek data nonce) nonce = data := by
  have hub : u128_from_be nonce < 2 ^ 128 := u128_from_be_lt nonce hnl hnb
  refine ⟨hub, ?_, ?_, ?_⟩
  · simp only [ctr_encrypt_decrypt]
    exact ctrGo_eq ek data.length _ data le_rfl
  · intro j hj
    exact ctr_keystream_block ek (data.length / 16) _ j hub hj
  · simp only [ctr_encrypt_decrypt]
    exact ctr_roundtrip_aux ek data.length _ data le_rfl

/-- All-ones nonce: the CTR counter wraps from `2^128 - 1` to 0. -/
def ctrWrapNonce : List Nat := List.replicate 16 0xff

/-- 32 bytes of test data (two CTR blocks across the wraparound). -/
def ctrWrapData : List Nat := List.range 32

/-- Witness for C9: a round trip across the `2^128` counter wraparound. -/
theorem claim_C9_witness :
    ctr_encrypt_decrypt (key_expansion fipsKey)
        (ctr_encrypt_decrypt (key_expansion fipsKey) ctrWrapData ctrWrapNonce) ctrWrapNonce =
      ctrWrapData :=
  (claim_C9 (key_expansion fipsKey) ctrWrapData ctrWrapNonce (by decide) (by decide)).2.2.2

/-- The `AesError` enum of the aes-128 crate. -/
inductive AesError where
  | InvalidKeySize
  | InvalidBlockSize
  | InvalidHexData
  | MissingIv
  | FileError (msg : String)
  deriving Repr, DecidableEq

/-- `add_padding` (aes-128 crate): PKCS#7; `padding_len = block_size - len % block_size`
(a full block when already aligned), append `padding_len` copies of `padding_len as u8`. -/
def add_padding (data : List Nat) (block_size : Nat) : List Nat :=
  let padding_len := block_size - data.length % block_size
  data ++ List.replicate padding_len (padding_len % 256)

/-- `remove_padding` (aes-128 crate): fail on empty input; read the last byte as
`padding_len`; fail if it is 0, exceeds 16, or exceeds the length; fail unless
the last `padding_len` bytes all equal it; otherwise truncate them. -/
def remove_padding (data : List Nat) : Except AesError (List Nat) :=
  if data.length = 0 then Except.error AesError.InvalidBlockSize
  else
    let padding_len := data.getLastD 0
    if padding_len = 0 ∨ padding_len > 16 ∨ padding_len > data.length then
      Except.error AesError.InvalidBlockSize
    else if (data.drop (data.length - padding_len)).all (fun b => b == padding_len) then
      Except.ok (data.take (data.length - padding_len))
    else Except.error AesError.InvalidBlockSize

lemma getLastD_append_replicate (d : List Nat) (n v : Nat) (hn : n ≠ 0) :
    (d ++ List.replicate n v).getLastD 0 = v := by
  rw [List.getLastD_eq_getLast?, List.getLast?_append, List.getLast?_replicate, if_neg hn]
  rfl

theorem claim_C5_amended (data : List Nat) :
    if data = [] ∨ data.getLastD 0 = 0 ∨ data.getLastD 0 > 16 ∨
        data.getLastD 0 > data.length ∨
        ∃ b ∈ data.drop (data.length - data.getLastD 0), b ≠ data.getLastD 0
    then remove_padding data = Except.error AesError.InvalidBlockSize
    else remove_padding data =
      Except.ok (data.take (data.length - data.getLastD 0)) := by
  by_cases h0 : data = []
  · subst h0
    simp [remove_padding]
  · have hlen0 : ¬ data.length = 0 := by simpa [List.length_eq_zero] using h0
    by_cases hA : data.getLastD 0 = 0 ∨ data.getLastD 0 > 16 ∨ data.getLastD 0 > data.length
    · rw [if_pos (by tauto)]
      simp only [remove_padding]
      rw [if_neg hlen0, if_pos hA]
    · by_cases hE : ∃ b ∈ data.drop (data.length - data.getLastD 0), b ≠ data.getLastD 0
      · rw [if_pos (by tauto)]
        simp only [remove_padding]
        rw [if_neg hlen0, if_neg hA, if_neg ?hall]
        case hall =>
          intro hall
          obtain ⟨b, hb, hbne⟩ := hE
          exact hbne (by simpa using List.all_eq_true.mp hall b hb)
      · rw [if_neg ?hcond]
        case hcond =>
          rintro (h | h | h | h | h)
          · exact h0 h
          · exact hA (Or.inl h)
          · exact hA (Or.inr (Or.inl h))
          · exact hA (Or.inr (Or.inr h))
          · exact hE h
        simp only [remove_padding]
        rw [if_neg hlen0, if_neg hA, if_pos ?hall]
        case hall =>
          rw [List.all_eq_true]
          intro b hb
          by_contra hbne
          exact hE ⟨b, hb, by simpa using hbne⟩

/-- C5 counterexample core: the failure value is `InvalidBlockSize`. -/
theorem claim_C5_counterexample :
    remove_padding [] = Except.error AesError.InvalidBlockSize ∧
    remove_padding [1, 2, 3] = Except.error AesError.InvalidBlockSize ∧
    (∀ e : AesError, e = AesError.InvalidKeySize ∨ e = AesError.InvalidBlockSize ∨
      e = AesError.InvalidHexData ∨ e = AesError.MissingIv ∨ ∃ msg, e = AesError.FileError msg) := by
  refine ⟨rfl, rfl, ?_⟩
  intro e
  cases e with
  | InvalidKeySize => exact Or.inl rfl
  | InvalidBlockSize => exact Or.inr (Or.inl rfl)
  | InvalidHexData => exact Or.inr (Or.inr (Or.inl rfl))
  | MissingIv => exact Or.inr (Or.inr (Or.inr (Or.inl rfl)))
  | FileError msg => exact Or.inr (Or.inr (Or.inr (Or.inr ⟨msg, rfl⟩)))

theorem claim_C8 (d : List Nat) :
    remove_padding (add_padding d 16) = Except.ok d ∧
    add_padding d 16 =
      d ++ List.replicate (16 - d.length % 16) (16 - d.length % 16) ∧
    (d.length % 16 = 0 → add_padding d 16 = d ++ List.replicate 16 16) := by
  have hmod : d.length % 16 < 16 := Nat.mod_lt _ (by norm_num)
  have hN1 : 1 ≤ 16 - d.length % 16 := by omega
  have hv : (16 - d.length % 16) % 256 = 16 - d.length % 16 := Nat.mod_eq_of_lt (by omega)
  have hpad : add_padding d 16 =
      d ++ List.replicate (16 - d.length % 16) (16 - d.length % 16) := by
    simp only [add_padding]
    rw [hv]
  refine ⟨?_, hpad, ?_⟩
  · rw [hpad]
    have hlen : (d ++ List.replicate (16 - d.length % 16) (16 - d.length % 16)).length =
        d.length + (16 - d.length % 16) := by
      simp [List.length_append, List.length_replicate]
    simp only [remove_padding]
    rw [getLastD_append_replicate d _ _ (by omega), hlen]
    rw [if_neg (by omega), if_neg (by omega)]
    have hsub : d.length + (16 - d.length % 16) - (16 - d.length % 16) = d.length := by omega
    rw [hsub]
    have hdrop : (d ++ List.replicate (16 - d.length % 16) (16 - d.length % 16)).drop d.length =
        List.replicate (16 - d.length % 16) (16 - d.length % 16) := List.drop_left d _
    have htake : (d ++ List.replicate (16 - d.length % 16) (16 - d.length % 16)).take d.length =
        d := List.take_left d _
    rw [hdrop, htake, if_pos ?hall]
    case hall =>
      rw [List.all_replicate]
      split
      · rfl
      · simp
  · intro h
    rw [hpad, h]

section KeyExpansion

lemma nextWord_length (ek : List Nat) : (nextWord ek).length = 4 := by
  simp only [nextWord]
  split <;> rfl

lemma ekUpTo_length (key : List Nat) (hk : key.length = 16) :
    ∀ n, (ekUpTo key n).length = 16 + 4 * n := by
  intro n
  induction n with
  | zero => exact hk
  | succ n ih =>
    show (ekUpTo key n ++ nextWord (ekUpTo key n)).length = 16 + 4 * (n + 1)
    rw [List.length_append, ih, nextWord_length]
    ring

lemma ekUpTo_succ (key : List Nat) (n : Nat) :
    ekUpTo key (n + 1) = ekUpTo key n ++ nextWord (ekUpTo key n) := rfl

lemma ekUpTo_prefix (key : List Nat) (m n : Nat) (hmn : m ≤ n) :
    ∃ r, ekUpTo key n = ekUpTo key m ++ r := by
  obtain ⟨k, rfl⟩ := Nat.exists_eq_add_of_le hmn
  induction k with
  | zero => exact ⟨[], by simp⟩
  | succ k ih =>
    obtain ⟨r, hr⟩ := ih (by omega)
    refine ⟨r ++ nextWord (ekUpTo key (m + k)), ?_⟩
    show ekUpTo key (m + k) ++ nextWord (ekUpTo key (m + k)) = _
    rw [hr, List.append_assoc]

/-- The recurrence `temp` word as the claim §4.1 states it: the previous word
`w[i-4..i]`, transformed by RotWord, SubWord and the Rcon XOR exactly when `i`
is divisible by 16. -/
def c7Temp (ek : List Nat) (i j : Nat) : Nat :=
  if i % 16 = 0 then
    sbox (ek.getD (i - 4 + (j + 1) % 4) 0) ^^^ (if j = 0 then RCON.getD (i / 16) 0 else 0)
  else ek.getD (i - 4 + j) 0

theorem claim_C7 (key : List Nat) (hk : key.length = 16) :
    (key_expansion key).length = 176 ∧
    (key_expansion key).take 16 = key ∧
    (∀ i, 16 ≤ i → i < 176 → i % 4 = 0 → ∀ j, j < 4 →
      (key_expansion key).getD (i + j) 0 =
        (key_expansion key).getD (i - 16 + j) 0 ^^^ c7Temp (key_expansion key) i j) := by
  have hlen := ekUpTo_length key hk
  refine ⟨by rw [key_expansion, hlen], ?_, ?_⟩
  · obtain ⟨r, hr⟩ := ekUpTo_prefix key 0 40 (by omega)
    rw [key_expansion, hr]
    exact List.take_left' hk
  · intro i h16 h176 h4 j hj
    have hlenk : (ekUpTo key ((i - 16) / 4)).length = i := by rw [hlen]; omega
    obtain ⟨r, hr⟩ := ekUpTo_prefix key ((i - 16) / 4 + 1) 40 (by omega)
    have hstep := ekUpTo_succ key ((i - 16) / 4)
    have hgetDhigh : (key_expansion key).getD (i + j) 0 =
        (nextWord (ekUpTo key ((i - 16) / 4))).getD j 0 := by
      rw [key_expansion, hr]
      rw [List.getD_append _ _ _ _ (by rw [hlen]; omega)]
      rw [hstep]
      rw [List.getD_append_right _ _ _ _ (by rw [hlenk]; omega)]
      rw [hlenk]
      have he : i + j - i = j := by omega
      rw [he]
    have hstab : ∀ x, x < i → (key_expansion key).getD x 0 =
        (ekUpTo key ((i - 16) / 4)).getD x 0 := by
      intro x hx
      obtain ⟨r2, hr2⟩ := ekUpTo_prefix key ((i - 16) / 4) 40 (by omega)
      rw [key_expansion, hr2]
      rw [List.getD_append _ _ _ _ (by rw [hlenk]; omega)]
    rw [hgetDhigh, hstab (i - 16 + j) (by omega)]
    simp only [nextWord, c7Temp, hlenk]
    by_cases hmod : i % 16 = 0 <;>
      simp only [if_pos, if_neg, hmod, if_true, if_false] <;>
      interval_cases j
    · have e2 : i - 4 + (0 + 1) % 4 = i - 3 := by omega
      rw [e2, hstab (i - 3) (by omega)]
      have e1 : i - 16 + 0 = i - 16 := by omega
      rw [e1]
      simp [Nat.xor_zero]
    · have e2 : i - 4 + (1 + 1) % 4 = i - 2 := by omega
      rw [e2, hstab (i - 2) (by omega)]
      have e1 : i - 16 + 1 = i - 15 := by omega
      rw [e1]
      simp [Nat.xor_zero]
    · have e2 : i - 4 + (2 + 1) % 4 = i - 1 := by omega
      rw [e2, hstab (i - 1) (by omega)]
      have e1 : i - 16 + 2 = i - 14 := by omega
      rw [e1]
      simp [Nat.xor_zero]
    · have e2 : i - 4 + (3 + 1) % 4 = i - 4 := by omega
      rw [e2, hstab (i - 4) (by omega)]
      have e1 : i - 16 + 3 = i - 13 := by omega
      rw [e1]
      simp [Nat.xor_zero]
    · have e2 : i - 4 + 0 = i - 4 := by omega
      rw [e2, hstab (i - 4) (by omega)]
      have e1 : i - 16 + 0 = i - 16 := by omega
      rw [e1]
      simp [Nat.xor_zero]
    · have e2 : i - 4 + 1 = i - 3 := by omega
      rw [e2, hstab (i - 3) (by omega)]
      have e1 : i - 16 + 1 = i - 15 := by omega
      rw [e1]
      simp [Nat.xor_zero]
    · have e2 : i - 4 + 2 = i - 2 := by omega
      rw [e2, hstab (i - 2) (by omega)]
      have e1 : i - 16 + 2 = i - 14 := by omega
      rw [e1]
      simp [Nat.xor_zero]
    · have e2 : i - 4 + 3 = i - 1 := by omega
      rw [e2, hstab (i - 1) (by omega)]
      have e1 : i - 16 + 3 = i - 13 := by omega
      rw [e1]
      simp [Nat.xor_zero]

/-- Witness for C7 at the FIPS-197 key, including one instance of the
recurrence (the first generated word, `i = 16`, `j = 0`). -/
theorem claim_C7_witness :
    (key_expansion fipsKey).length = 176 ∧
    (key_expansion fipsKey).take 16 = fipsKey ∧
    (key_expansion fipsKey).getD (16 + 0) 0 =
      (key_expansion fipsKey).getD (16 - 16 + 0) 0 ^^^ c7Temp (key_expansion fipsKey) 16 0 := by
  have h := claim_C7 fipsKey (by decide)
  exact ⟨h.1, h.2.1, h.2.2 16 (by decide) (by decide) (by decide) 0 (by decide)⟩

end KeyExpansion

end Aes128

namespace CipherModes

/-- `add_padding` (cipher-modes crate): zero padding, only when the length is
not already a multiple of the block size. -/
def add_padding (data : List Nat) (block_size : Nat) : List Nat :=
  let remainder := data.length % block_size
  if remainder ≠ 0 then data ++ List.replicate (block_size - remainder) 0 else data

/-- `remove_padding` (cipher-modes crate): pop trailing bytes while they are 0. -/
def remove_padding (data : List Nat) : List Nat :=
  (data.reverse.dropWhile (fun b => b == 0)).reverse

lemma dropWhile_zero_replicate (k : Nat) (l : List Nat) :
    List.dropWhile (fun b => b == 0) (List.replicate k 0 ++ l) =
      List.dropWhile (fun b => b == 0) l := by
  induction k with
  | zero => simp
  | succ k ih => simpa [List.replicate_succ, List.dropWhile_cons] using ih

lemma remove_padding_append_zeros (d : List Nat) (k : Nat) :
    remove_padding (d ++ List.replicate k 0) = remove_padding d := by
  simp only [remove_padding, List.reverse_append, List.reverse_replicate]
  rw [dropWhile_zero_replicate]

lemma reverse_eq_getLast_cons (d : List Nat) (hne : d ≠ []) :
    d.reverse = d.getLast hne :: d.dropLast.reverse := by
  conv_lhs => rw [← List.dropLast_append_getLast hne]
  rw [List.reverse_append]
  simp

lemma getLastD_eq_getLast (d : List Nat) (hne : d ≠ []) :
    d.getLastD 0 = d.getLast hne := by
  rw [List.getLastD_eq_getLast?, List.getLast?_eq_getLast d hne]
  rfl

lemma remove_padding_of_last_ne (d : List Nat) (hne : d ≠ []) (h : d.getLastD 0 ≠ 0) :
    remove_padding d = d := by
  simp only [remove_padding, reverse_eq_getLast_cons d hne, List.dropWhile_cons]
  rw [if_neg ?hc]
  · rw [← reverse_eq_getLast_cons d hne, List.reverse_reverse]
  case hc =>
    intro hbeq
    exact h (by rw [getLastD_eq_getLast d hne]; exact beq_iff_eq.mp hbeq)

lemma remove_padding_length_lt (d : List Nat) (hne : d ≠ []) (h : d.getLastD 0 = 0) :
    (remove_padding d).length < d.length := by
  have hrev : d.reverse = 0 :: d.dropLast.reverse := by
    rw [reverse_eq_getLast_cons d hne, ← getLastD_eq_getLast d hne, h]
  simp only [remove_padding, hrev, List.dropWhile_cons]
  rw [if_pos (by simp)]
  have hle := (List.dropWhile_sublist (p := fun b => b == 0)
    (l := d.dropLast.reverse)).length_le
  have hp : 0 < d.length := List.length_pos.mpr hne
  simp only [List.length_reverse] at hle ⊢
  have hdl : d.dropLast.length = d.length - 1 := List.length_dropLast d
  omega

theorem claim_C10 (d : List Nat) (k : Nat) :
    (d.length % 16 = 0 → add_padding d 16 = d) ∧
    (d.length % 16 ≠ 0 →
      add_padding d 16 = d ++ List.replicate (16 - d.length % 16) 0) ∧
    remove_padding (d ++ List.replicate k 0) = remove_padding d ∧
    remove_padding (add_padding d 16) = remove_padding d ∧
    (remove_padding (add_padding d 16) = d ↔ d = [] ∨ d.getLastD 0 ≠ 0) := by
  have hrt : remove_padding (add_padding d 16) = remove_padding d := by
    by_cases hm : d.length % 16 = 0
    · simp [add_padding, hm]
    · simp only [add_padding]
      rw [if_pos (by simpa using hm)]
      exact remove_padding_append_zeros d _
  refine ⟨fun hm => by simp [add_padding, hm], fun hm => by
    simp only [add_padding]; rw [if_pos (by simpa using hm)],
    remove_padding_append_zeros d k, hrt, ?_⟩
  rw [hrt]
  constructor
  · intro hself
    by_cases hne : d = []
    · exact Or.inl hne
    · refine Or.inr ?_
      intro hlast
      have := remove_padding_length_lt d hne hlast
      rw [hself] at this
      omega
  · intro h
    rcases h with rfl | hlast
    · rfl
    · by_cases hne : d = []
      · subst hne; rfl
      · exact remove_padding_of_last_ne d hne hlast

end CipherModes

/-- Witness for C8 at a block-aligned 16-byte input. -/
theorem claim_C8_witness :
    Aes128.remove_padding (Aes128.add_padding (List.range 16) 16) =
      Except.ok (List.range 16) ∧
    Aes128.add_padding (List.range 16) 16 = List.range 16 ++ List.replicate 16 16 :=
  ⟨(Aes128.claim_C8 (List.range 16)).1, (Aes128.claim_C8 (List.range 16)).2.2 (by decide)⟩

/-- Witness for C10 at the input `[1, 0]`, whose trailing zero is destroyed by
the round trip. -/
theorem claim_C10_witness :
    CipherModes.remove_padding (CipherModes.add_padding [1, 0] 16) =
      CipherModes.remove_padding [1, 0] ∧
    CipherModes.add_padding [1, 0] 16 = [1, 0] ++ List.replicate 14 0 ∧
    ¬ CipherModes.remove_padding (CipherModes.add_padding [1, 0] 16) = [1, 0] := by
  have h := CipherModes.claim_C10 [1, 0] 3
  refine ⟨h.2.2.2.1, h.2.1 (by decide), fun hr => ?_⟩
  rcases h.2.2.2.2.mp hr with h' | h'
  · exact absurd h' (by decide)
  · exact h' rfl
